import Mathlib

/-!
WebSocket benchmark: echo server and message codec.

A shallow embedding of `websocket-server/nodejs/index.js` (the connection, message, close
and error handlers together with the Prometheus metrics they update) and of the
`WebsocketMessage` wire codec the server and the load generators share.

Node runs every handler to completion on one thread, so an execution of the server is a
sequence of handler invocations; `Event` names them and `run` folds them over the state.
-/

namespace WebsocketBenchmark

/-! ## Data model -/

/-- A frame payload, one natural number below 256 per byte. -/
abbrev Bytes := List Nat

/-- The schema `messagepackage.WebsocketMessage` of `client-k6/index.js`: three string
fields, `content` (id 1), `senderId` (id 2) and `receiverId` (id 3). -/
structure WebsocketMessage where
  content : String
  senderId : String
  receiverId : String
deriving DecidableEq, Repr

/-- Reasons for which deserialisation throws. -/
inductive DecodeError where
  | truncated
  | invalidTag
  | invalidWireType
  | invalidUtf8
  | outOfFuel
deriving DecidableEq, Repr

/-- The value the `ws` library hands to the `'message'` listener: a string
(`typeof msg === 'string'`), a `Buffer` (`Buffer.isBuffer(msg)`), or anything else
(an `ArrayBuffer` or an array of fragments). -/
inductive Data where
  | str (text : String)
  | buffer (bytes : Bytes)
  | other (fragments : List Bytes)
deriving DecidableEq, Repr

/-- The six custom metrics registered by the server (index.js lines 15-44). The histogram
is kept as the list of observed values, in seconds, oldest first. -/
structure Metrics where
  messagesReceived : Nat
  messagesSent : Nat
  activeConnections : Int
  responseTimes : List ℚ
  connectionErrors : Nat
  messageErrors : Nat
deriving DecidableEq

/-- One accepted socket `ws`: whether the transport is still open, and the frames passed
to `ws.send`, oldest first. -/
structure Conn where
  isOpen : Bool
  outbox : List Bytes
deriving DecidableEq

/-- The process state: the shared metrics and one `Conn` per socket identity. -/
structure ServerState where
  metrics : Metrics
  conns : Nat → Conn

/-- All metrics at zero, the histogram empty. -/
def Metrics.zero : Metrics :=
  { messagesReceived := 0, messagesSent := 0, activeConnections := 0,
    responseTimes := [], connectionErrors := 0, messageErrors := 0 }

/-- A socket identity that has not been accepted yet. -/
def Conn.absent : Conn := { isOpen := false, outbox := [] }

/-- The state right after start-up. -/
def ServerState.init : ServerState := { metrics := Metrics.zero, conns := fun _ => Conn.absent }

/-! ## Metric operations -/

/-- `counterMessagesReceived.inc()`. -/
def counterMessagesReceivedInc (s : ServerState) : ServerState :=
  { s with metrics := { s.metrics with messagesReceived := s.metrics.messagesReceived + 1 } }

/-- `counterMessagesSent.inc()`. -/
def counterMessagesSentInc (s : ServerState) : ServerState :=
  { s with metrics := { s.metrics with messagesSent := s.metrics.messagesSent + 1 } }

/-- `gaugeActiveConnections.inc()`. -/
def gaugeActiveConnectionsInc (s : ServerState) : ServerState :=
  { s with metrics := { s.metrics with activeConnections := s.metrics.activeConnections + 1 } }

/-- `gaugeActiveConnections.dec()`. -/
def gaugeActiveConnectionsDec (s : ServerState) : ServerState :=
  { s with metrics := { s.metrics with activeConnections := s.metrics.activeConnections - 1 } }

/-- `histogramServerResponseTime.observe(v)`. -/
def histogramServerResponseTimeObserve (v : ℚ) (s : ServerState) : ServerState :=
  { s with metrics := { s.metrics with responseTimes := s.metrics.responseTimes ++ [v] } }

/-- `counterConnectionErrors.inc()`. -/
def counterConnectionErrorsInc (s : ServerState) : ServerState :=
  { s with metrics := { s.metrics with connectionErrors := s.metrics.connectionErrors + 1 } }

/-- `counterMessageErrors.inc()`. -/
def counterMessageErrorsInc (s : ServerState) : ServerState :=
  { s with metrics := { s.metrics with messageErrors := s.metrics.messageErrors + 1 } }

/-! ## Handlers -/

/-- `ws.send(frame)` on an open socket: the frame is queued on that socket. -/
def wsSend (ws : Nat) (frame : Bytes) (s : ServerState) : ServerState :=
  let c := s.conns ws
  { s with conns := Function.update s.conns ws { c with outbox := c.outbox ++ [frame] } }

/-- The `'message'` listener (index.js lines 80-113). `startTime` and `endTime` are the two
readings of `Date.now()`, in milliseconds; the second is taken only on the echo path. The
codec's `deserializeBinary` is a parameter. -/
def onMessage (deserializeBinary : Bytes → Except DecodeError WebsocketMessage)
    (ws : Nat) (msg : Data) (startTime endTime : Int) (s : ServerState) : ServerState :=
  let s := counterMessagesReceivedInc s
  match msg with
  | .str _ => s
  | .buffer b =>
    match deserializeBinary b with
    | .ok _ =>
      let s := wsSend ws b s
      let s := counterMessagesSentInc s
      histogramServerResponseTimeObserve (((endTime - startTime : Int) : ℚ) / 1000) s
    | .error _ => counterMessageErrorsInc s
  | .other _ => s

/-- The greeting built on lines 116-119. -/
def initialMessage : WebsocketMessage :=
  { content := "Connection established successfully!", senderId := "server",
    receiverId := "client" }

/-- The `'connection'` listener (index.js lines 75-136) up to the registration of the
listeners: the gauge goes up, a fresh open socket appears, the serialised greeting is
sent on it. The codec's `serializeBinary` is a parameter. -/
def onConnection (serializeBinary : WebsocketMessage → Bytes) (ws : Nat) (s : ServerState) :
    ServerState :=
  let s := gaugeActiveConnectionsInc s
  let s := { s with conns := Function.update s.conns ws { isOpen := true, outbox := [] } }
  wsSend ws (serializeBinary initialMessage) s

/-- The `'close'` listener (lines 126-129); the library has closed the transport. -/
def onClose (ws : Nat) (s : ServerState) : ServerState :=
  let s := gaugeActiveConnectionsDec s
  let c := s.conns ws
  { s with conns := Function.update s.conns ws { c with isOpen := false } }

/-- The `'error'` listener (lines 132-135). -/
def onError (_ws : Nat) (s : ServerState) : ServerState :=
  counterConnectionErrorsInc s

/-- One handler invocation. -/
inductive Event where
  | connection (ws : Nat)
  | message (ws : Nat) (msg : Data) (startTime endTime : Int)
  | close (ws : Nat)
  | error (ws : Nat)
deriving DecidableEq

/-- Dispatch of one event to its listener. -/
def step (serializeBinary : WebsocketMessage → Bytes)
    (deserializeBinary : Bytes → Except DecodeError WebsocketMessage)
    (s : ServerState) : Event → ServerState
  | .connection ws => onConnection serializeBinary ws s
  | .message ws msg t0 t1 => onMessage deserializeBinary ws msg t0 t1 s
  | .close ws => onClose ws s
  | .error ws => onError ws s

/-- The server run over a sequence of events, in the order the event loop delivers them. -/
def run (serializeBinary : WebsocketMessage → Bytes)
    (deserializeBinary : Bytes → Except DecodeError WebsocketMessage)
    (s : ServerState) (trace : List Event) : ServerState :=
  trace.foldl (step serializeBinary deserializeBinary) s


/-! ## Message codec

The generated module `protobuf/message_pb` the server requires is not part of the sources
at hand; the codec below follows the specification's description of it: three string
fields with wire tags 1 to 3, a varint length before each payload, UTF-8 payloads.
-/

/-- Modelled from the spec: the UTF-8 encoder of the absent `protobuf/message_pb` codec;
the bytes of one Unicode scalar value. -/
def utf8EncodeChar (c : Char) : Bytes :=
  let v := c.toNat
  if v < 0x80 then [v]
  else if v < 0x800 then [0xC0 + v / 64, 0x80 + v % 64]
  else if v < 0x10000 then [0xE0 + v / 4096, 0x80 + v / 64 % 64, 0x80 + v % 64]
  else [0xF0 + v / 262144, 0x80 + v / 4096 % 64, 0x80 + v / 64 % 64, 0x80 + v % 64]

/-- Modelled from the spec: the UTF-8 encoder of the absent `protobuf/message_pb` codec;
the bytes of a sequence of scalar values. -/
def utf8EncodeChars : List Char → Bytes
  | [] => []
  | c :: cs => utf8EncodeChar c ++ utf8EncodeChars cs

/-- Modelled from the spec: the UTF-8 encoder of the absent `protobuf/message_pb` codec;
the bytes of a string. -/
def utf8Encode (s : String) : Bytes := utf8EncodeChars s.data

/-- A UTF-8 continuation byte, `10xxxxxx`. -/
def isContinuation (b : Nat) : Bool := decide (0x80 ≤ b) && decide (b < 0xC0)

/-- Modelled from the spec: the UTF-8 decoder of the absent `protobuf/message_pb` codec, a
byte-at-a-time automaton: `pending` continuation bytes are still due for the scalar value
accumulated in `acc`, which must reach `lo` not to be an overlong form. It is strict
("invalid UTF-8" is a decode error): stray or missing continuation bytes, overlong forms,
surrogates and values above U+10FFFF give `none`. -/
def utf8Go (pending acc lo : Nat) : Bytes → Option (List Char)
  | [] => if pending = 0 then some [] else none
  | b :: rest =>
    if pending = 0 then
      if b < 0x80 then (utf8Go 0 0 0 rest).map (fun cs => Char.ofNat b :: cs)
      else if b < 0xC2 then none
      else if b < 0xE0 then utf8Go 1 (b - 0xC0) 0x80 rest
      else if b < 0xF0 then utf8Go 2 (b - 0xE0) 0x800 rest
      else if b < 0xF5 then utf8Go 3 (b - 0xF0) 0x10000 rest
      else none
    else if isContinuation b then
      let v := acc * 64 + (b - 0x80)
      if pending = 1 then
        if lo ≤ v ∧ (v < 0xD800 ∨ (0xDFFF < v ∧ v < 0x110000)) then
          (utf8Go 0 0 0 rest).map (fun cs => Char.ofNat v :: cs)
        else none
      else utf8Go (pending - 1) v lo rest
    else none

/-- Modelled from the spec: the UTF-8 decoder of the absent `protobuf/message_pb` codec on a
whole payload. -/
def utf8DecodeChars (bs : Bytes) : Option (List Char) := utf8Go 0 0 0 bs

/-- Modelled from the spec: the UTF-8 decoder of the absent `protobuf/message_pb` codec,
returning a string. -/
def utf8Decode (bs : Bytes) : Option String := (utf8DecodeChars bs).map String.mk

/-- Modelled from the spec: the varint writer of the absent `protobuf/message_pb` codec,
seven bits per byte, least significant group first, the high bit set on every byte but
the last. `fuel` bounds the loop; `encodeVarint` passes enough. -/
def encodeVarintAux : Nat → Nat → Bytes
  | 0, n => [n % 128]
  | fuel + 1, n => if n < 128 then [n] else (n % 128 + 128) :: encodeVarintAux fuel (n / 128)

/-- Modelled from the spec: the varint writer of the absent `protobuf/message_pb` codec. -/
def encodeVarint (n : Nat) : Bytes := encodeVarintAux n n

/-- Modelled from the spec: the varint reader of the absent `protobuf/message_pb` codec;
the value and the bytes after it, or `none` when the input ends inside the varint. -/
def decodeVarint : Bytes → Option (Nat × Bytes)
  | [] => none
  | b :: rest =>
    if b < 128 then some (b, rest)
    else
      match decodeVarint rest with
      | none => none
      | some (v, rest1) => some (b % 128 + 128 * v, rest1)

/-- Modelled from the spec: one string field as written by the absent
`protobuf/message_pb` codec: the tag (field number and wire type 2), the byte length as a
varint, the UTF-8 payload. The spec fixes tags and order but not whether an empty string is
written; `omitEmpty` chooses (the generated proto3 writer skips empty strings, the
reflection-based writer of the k6 client writes every field it was given). -/
def encodeStringField (omitEmpty : Bool) (fieldNo : Nat) (s : String) : Bytes :=
  if omitEmpty && decide (s.data = []) then []
  else encodeVarint (fieldNo * 8 + 2) ++ encodeVarint (utf8Encode s).length ++ utf8Encode s

/-- Modelled from the spec: `serializeBinary` of the absent `protobuf/message_pb` codec
(`encode(content, senderId, receiverId)`): the three fields in schema order. -/
def serializeBinary (omitEmpty : Bool) (m : WebsocketMessage) : Bytes :=
  encodeStringField omitEmpty 1 m.content ++ encodeStringField omitEmpty 2 m.senderId
    ++ encodeStringField omitEmpty 3 m.receiverId

/-- Assignment of a decoded string to the field with the given number. -/
def WebsocketMessage.setField (m : WebsocketMessage) (fieldNo : Nat) (s : String) :
    WebsocketMessage :=
  if fieldNo = 1 then { m with content := s }
  else if fieldNo = 2 then { m with senderId := s }
  else if fieldNo = 3 then { m with receiverId := s }
  else m

/-- Modelled from the spec: one round of the field loop of `deserializeBinary` of the
absent `protobuf/message_pb` codec. It reads a tag; a length-delimited field 1, 2 or 3 is a
UTF-8 string, a field with another number is skipped according to its wire type, and a
truncated tag, a length running past the input, invalid UTF-8, field number 0, a schema
field with a wire type other than 2 or an unknown wire type is a `DecodeError`. The result
is the remaining input and the updated message. -/
def readField (bs : Bytes) (m : WebsocketMessage) :
    Except DecodeError (Bytes × WebsocketMessage) :=
  match decodeVarint bs with
  | none => .error .truncated
  | some (tag, rest) =>
    let fieldNo := tag / 8
    let wireType := tag % 8
    if fieldNo = 0 then .error .invalidTag
    else if wireType = 2 then
      match decodeVarint rest with
      | none => .error .truncated
      | some (len, rest1) =>
        if rest1.length < len then .error .truncated
        else if fieldNo ≤ 3 then
          match utf8Decode (rest1.take len) with
          | none => .error .invalidUtf8
          | some str => .ok (rest1.drop len, m.setField fieldNo str)
        else .ok (rest1.drop len, m)
    else if fieldNo ≤ 3 then .error .invalidWireType
    else if wireType = 0 then
      match decodeVarint rest with
      | none => .error .truncated
      | some (_, rest1) => .ok (rest1, m)
    else if wireType = 1 then
      if rest.length < 8 then .error .truncated else .ok (rest.drop 8, m)
    else if wireType = 5 then
      if rest.length < 4 then .error .truncated else .ok (rest.drop 4, m)
    else .error .invalidWireType

/-- Modelled from the spec: the field loop of `deserializeBinary` of the absent
`protobuf/message_pb` codec: fields are read until the input is exhausted. Every round
consumes at least one byte, so `fuel` equal to the input length is enough. -/
def deserializeFields : Nat → Bytes → WebsocketMessage → Except DecodeError WebsocketMessage
  | _, [], m => .ok m
  | 0, _ :: _, _ => .error .outOfFuel
  | fuel + 1, b :: bs, m =>
    match readField (b :: bs) m with
    | .error e => .error e
    | .ok (rest, m1) => deserializeFields fuel rest m1

/-- Modelled from the spec: `deserializeBinary` of the absent `protobuf/message_pb` codec
(`decode(bytes)`): absent fields are the empty string. -/
def deserializeBinary (bytes : Bytes) : Except DecodeError WebsocketMessage :=
  deserializeFields bytes.length bytes { content := "", senderId := "", receiverId := "" }

/-- The payload built by `sendMessage` in `client-artillery/process.js` (and by
`client-artillery/index.js`). -/
def helloMessage : WebsocketMessage :=
  { content := "Hello, WebSocket!", senderId := "client", receiverId := "server" }

/-! ## Trace vocabulary -/

/-- Whether the event is the acceptance of a connection. -/
def Event.isConnection : Event → Bool
  | .connection _ => true
  | _ => false

/-- Whether the event is the closure of a connection. -/
def Event.isClose : Event → Bool
  | .close _ => true
  | _ => false

/-- Whether the event is a message delivered on socket `ws`. -/
def Event.isMessageOn (ws : Nat) : Event → Bool
  | .message w _ _ _ => decide (w = ws)
  | _ => false

/-- Whether the event, if it is a message, carries a binary frame from one of the sockets
`0, ..., n - 1`. -/
def Event.binaryFromBelow (n : Nat) : Event → Bool
  | .message w (.buffer _) _ _ => decide (w < n)
  | .message _ _ _ _ => false
  | _ => true

/-- The payloads delivered on socket `ws`, in receipt order. -/
def receivedOn (ws : Nat) : List Event → List Data
  | [] => []
  | .message w msg _ _ :: rest =>
    if w = ws then msg :: receivedOn ws rest else receivedOn ws rest
  | _ :: rest => receivedOn ws rest

/-- The binary frames among the payloads that deserialise, in order and unmodified. -/
def decodableFrames (deserializeBinary : Bytes → Except DecodeError WebsocketMessage) :
    List Data → List Bytes
  | [] => []
  | .buffer b :: rest =>
    match deserializeBinary b with
    | .ok _ => b :: decodableFrames deserializeBinary rest
    | .error _ => decodableFrames deserializeBinary rest
  | _ :: rest => decodableFrames deserializeBinary rest

/-! ## Well-formed encodings

What the specification calls a valid encoding of the schema, stated as a grammar rather
than as a reader: an encoding is a sequence of field records.
-/

/-- Modelled from the spec: `IsVarint t v` holds when the bytes `t` are a varint of value
`v`: every byte but the last has its high bit set, and the low seven bits of the bytes are
the base-128 digits of `v`, least significant first. -/
inductive IsVarint : Bytes → Nat → Prop
  | last (b : Nat) (h : b < 128) : IsVarint [b] b
  | more (b : Nat) (t : Bytes) (v : Nat) (h : 128 ≤ b) (ht : IsVarint t v) :
      IsVarint (b :: t) (b % 128 + 128 * v)

/-- Modelled from the spec: `IsField r m m1` holds when the bytes `r` are one well-formed
field record and reading it takes the message `m` to `m1`. A record is a tag (field number
times 8 plus wire type) followed, for a schema field 1, 2 or 3, by a length and that many
bytes which are the UTF-8 encoding of a string, assigned to the field; for any other field
number, by a length-delimited, varint, 64-bit or 32-bit value that is skipped. -/
inductive IsField : Bytes → WebsocketMessage → WebsocketMessage → Prop
  | string (t l : Bytes) (k : Nat) (s : String) (m : WebsocketMessage)
      (ht : IsVarint t (k * 8 + 2)) (hk1 : 1 ≤ k) (hk3 : k ≤ 3)
      (hl : IsVarint l (utf8Encode s).length) :
      IsField (t ++ l ++ utf8Encode s) m (m.setField k s)
  | unknownBytes (t l p : Bytes) (k : Nat) (m : WebsocketMessage)
      (ht : IsVarint t (k * 8 + 2)) (hk : 4 ≤ k) (hl : IsVarint l p.length) :
      IsField (t ++ l ++ p) m m
  | unknownVarint (t x : Bytes) (k v : Nat) (m : WebsocketMessage)
      (ht : IsVarint t (k * 8)) (hk : 4 ≤ k) (hx : IsVarint x v) :
      IsField (t ++ x) m m
  | unknownFixed64 (t p : Bytes) (k : Nat) (m : WebsocketMessage)
      (ht : IsVarint t (k * 8 + 1)) (hk : 4 ≤ k) (hp : p.length = 8) :
      IsField (t ++ p) m m
  | unknownFixed32 (t p : Bytes) (k : Nat) (m : WebsocketMessage)
      (ht : IsVarint t (k * 8 + 5)) (hk : 4 ≤ k) (hp : p.length = 4) :
      IsField (t ++ p) m m

/-- Modelled from the spec: `IsEncoding bs m m1` holds when the bytes `bs` are a sequence
of well-formed field records which, read in order starting from the message `m`, give
`m1`. The bytes are a valid encoding of the schema, and encode `m1`, when this holds from
the message with three empty fields. -/
inductive IsEncoding : Bytes → WebsocketMessage → WebsocketMessage → Prop
  | done (m : WebsocketMessage) : IsEncoding [] m m
  | field (r rest : Bytes) (m m1 m2 : WebsocketMessage) (hr : IsField r m m1)
      (hrest : IsEncoding rest m1 m2) : IsEncoding (r ++ rest) m m2

/-- The message with three empty fields, from which `deserializeBinary` starts. -/
def emptyMessage : WebsocketMessage := { content := "", senderId := "", receiverId := "" }

/-- The field of a message with the given number. -/
def WebsocketMessage.getField (m : WebsocketMessage) (fieldNo : Nat) : String :=
  if fieldNo = 1 then m.content
  else if fieldNo = 2 then m.senderId
  else m.receiverId

/-- The offset in `serializeBinary omitEmpty m` at which field 1, 2 or 3 starts. -/
def fieldStart (omitEmpty : Bool) (m : WebsocketMessage) (fieldNo : Nat) : Nat :=
  if fieldNo = 1 then 0
  else if fieldNo = 2 then (encodeStringField omitEmpty 1 m.content).length
  else (encodeStringField omitEmpty 1 m.content).length
    + (encodeStringField omitEmpty 2 m.senderId).length

/-- The prefix lengths of `serializeBinary omitEmpty m` that end between two fields. -/
def fieldBoundaries (omitEmpty : Bool) (m : WebsocketMessage) : List Nat :=
  [fieldStart omitEmpty m 1, fieldStart omitEmpty m 2, fieldStart omitEmpty m 3]

/-- The offset in `serializeBinary omitEmpty m` at which the payload of a written field
starts: after its tag byte and its length varint. -/
def payloadStart (omitEmpty : Bool) (m : WebsocketMessage) (fieldNo : Nat) : Nat :=
  fieldStart omitEmpty m fieldNo + 1
    + (encodeVarint (utf8Encode (m.getField fieldNo)).length).length

/-- The bytes `e` with those from offset `i` on overwritten by `p`. -/
def overwrite (e : Bytes) (i : Nat) (p : Bytes) : Bytes :=
  e.take i ++ p ++ e.drop (i + p.length)

/-! ## Handlers: effect of one invocation -/

/-- C1 (echo fidelity): when a binary frame `b` deserialises, the message handler queues
exactly one frame on the same socket, equal to `b` itself, touches no other socket, raises
`messages_received_total` and `messages_sent_total` by one each and leaves
`message_errors_total` as it was. -/
theorem echo_fidelity (de : Bytes → Except DecodeError WebsocketMessage) (ws : Nat)
    (b : Bytes) (m : WebsocketMessage) (t0 t1 : Int) (s : ServerState) (h : de b = .ok m) :
    ((onMessage de ws (.buffer b) t0 t1 s).conns ws).outbox = (s.conns ws).outbox ++ [b]
    ∧ (∀ c, c ≠ ws → (onMessage de ws (.buffer b) t0 t1 s).conns c = s.conns c)
    ∧ (onMessage de ws (.buffer b) t0 t1 s).metrics.messagesReceived
        = s.metrics.messagesReceived + 1
    ∧ (onMessage de ws (.buffer b) t0 t1 s).metrics.messagesSent = s.metrics.messagesSent + 1
    ∧ (onMessage de ws (.buffer b) t0 t1 s).metrics.messageErrors = s.metrics.messageErrors := by
  refine ⟨?_, ?_, ?_, ?_, ?_⟩
  · simp [onMessage, h, wsSend, counterMessagesReceivedInc, counterMessagesSentInc,
      histogramServerResponseTimeObserve]
  · intro c hc
    simp [onMessage, h, wsSend, counterMessagesReceivedInc, counterMessagesSentInc,
      histogramServerResponseTimeObserve, Function.update_noteq hc]
  · simp [onMessage, h, wsSend, counterMessagesReceivedInc, counterMessagesSentInc,
      histogramServerResponseTimeObserve]
  · simp [onMessage, h, wsSend, counterMessagesReceivedInc, counterMessagesSentInc,
      histogramServerResponseTimeObserve]
  · simp [onMessage, h, wsSend, counterMessagesReceivedInc, counterMessagesSentInc,
      histogramServerResponseTimeObserve]

/-- Witness for C1: the 35-byte encoding of the load generators' hello message, received
on socket 4 right after start-up. -/
theorem echo_fidelity_witness :
    deserializeBinary (serializeBinary true helloMessage) = .ok helloMessage
    ∧ ((onMessage deserializeBinary 4 (.buffer (serializeBinary true helloMessage))
        1000 1003 ServerState.init).conns 4).outbox
      = (ServerState.init.conns 4).outbox ++ [serializeBinary true helloMessage] :=
  ⟨rfl, (echo_fidelity deserializeBinary 4 (serializeBinary true helloMessage) helloMessage
    1000 1003 ServerState.init rfl).1⟩

/-- C2 (decode-failure containment): when a binary frame `b` fails to deserialise, the
message handler queues no frame on any socket and leaves every socket as open as it was,
raises `message_errors_total` by one, leaves `messages_sent_total` and the
active-connections gauge alone, and a later frame `b2` that deserialises is still echoed
on the same socket. -/
theorem decode_failure_containment (de : Bytes → Except DecodeError WebsocketMessage)
    (ws : Nat) (b : Bytes) (e : DecodeError) (t0 t1 : Int) (s : ServerState)
    (h : de b = .error e) :
    (onMessage de ws (.buffer b) t0 t1 s).conns = s.conns
    ∧ (onMessage de ws (.buffer b) t0 t1 s).metrics.messageErrors = s.metrics.messageErrors + 1
    ∧ (onMessage de ws (.buffer b) t0 t1 s).metrics.messagesSent = s.metrics.messagesSent
    ∧ (onMessage de ws (.buffer b) t0 t1 s).metrics.activeConnections
        = s.metrics.activeConnections
    ∧ ((s.conns ws).isOpen = true →
        ((onMessage de ws (.buffer b) t0 t1 s).conns ws).isOpen = true)
    ∧ (∀ (b2 : Bytes) (m2 : WebsocketMessage) (t2 t3 : Int), de b2 = .ok m2 →
        ((onMessage de ws (.buffer b2) t2 t3 (onMessage de ws (.buffer b) t0 t1 s)).conns
            ws).outbox = (s.conns ws).outbox ++ [b2]
        ∧ (onMessage de ws (.buffer b2) t2 t3
            (onMessage de ws (.buffer b) t0 t1 s)).metrics.messagesSent
          = s.metrics.messagesSent + 1) := by
  have hc : (onMessage de ws (.buffer b) t0 t1 s).conns = s.conns := by
    simp [onMessage, h, counterMessagesReceivedInc, counterMessageErrorsInc]
  have hs : (onMessage de ws (.buffer b) t0 t1 s).metrics.messagesSent
      = s.metrics.messagesSent := by
    simp [onMessage, h, counterMessagesReceivedInc, counterMessageErrorsInc]
  refine ⟨hc, ?_, hs, ?_, ?_, ?_⟩
  · simp [onMessage, h, counterMessagesReceivedInc, counterMessageErrorsInc]
  · simp [onMessage, h, counterMessagesReceivedInc, counterMessageErrorsInc]
  · intro ho
    rw [hc]
    exact ho
  · intro b2 m2 t2 t3 h2
    constructor
    · simp [onMessage, h, h2, wsSend, counterMessagesReceivedInc, counterMessagesSentInc,
        counterMessageErrorsInc, histogramServerResponseTimeObserve]
    · simp [onMessage, h, h2, wsSend, counterMessagesReceivedInc, counterMessagesSentInc,
        counterMessageErrorsInc, histogramServerResponseTimeObserve]

/-- Witness for C2: a valid encoding cut to its first two bytes, `0a 11`. -/
theorem decode_failure_containment_witness :
    deserializeBinary [10, 17] = .error .truncated
    ∧ (onMessage deserializeBinary 0 (.buffer [10, 17]) 7 7 ServerState.init).conns
        = ServerState.init.conns :=
  ⟨rfl, (decode_failure_containment deserializeBinary 0 [10, 17] .truncated 7 7
    ServerState.init rfl).1⟩

/-- C7, as the code has it: for a text frame the message handler queues no frame and
leaves `messages_sent_total`, `message_errors_total`, `connection_errors_total`, the gauge
and the histogram alone, but it does raise `messages_received_total` by one. -/
theorem text_frame_effect (de : Bytes → Except DecodeError WebsocketMessage) (ws : Nat)
    (text : String) (t0 t1 : Int) (s : ServerState) :
    (onMessage de ws (.str text) t0 t1 s).conns = s.conns
    ∧ (onMessage de ws (.str text) t0 t1 s).metrics
        = { s.metrics with messagesReceived := s.metrics.messagesReceived + 1 } := by
  simp [onMessage, counterMessagesReceivedInc]

/-- C7 as stated fails: a text frame received right after start-up moves
`messages_received_total` from 0 to 1, so the metrics are not left unchanged. -/
theorem text_frame_changes_received :
    (onMessage deserializeBinary 0 (.str "ping") 5 5 ServerState.init).metrics.messagesReceived
        = 1
    ∧ ServerState.init.metrics.messagesReceived = 0
    ∧ (onMessage deserializeBinary 0 (.str "ping") 5 5 ServerState.init).metrics
        ≠ ServerState.init.metrics := by
  refine ⟨rfl, rfl, ?_⟩
  intro h
  have h1 := congrArg Metrics.messagesReceived h
  simp [onMessage, counterMessagesReceivedInc, ServerState.init, Metrics.zero] at h1

/-- C10 (transport-error accounting): the error handler raises `connection_errors_total`
by one and changes nothing else: the other counters, the histogram, the gauge and every
socket stay as they were. -/
theorem transport_error_accounting (ws : Nat) (s : ServerState) :
    (onError ws s).metrics
        = { s.metrics with connectionErrors := s.metrics.connectionErrors + 1 }
    ∧ (onError ws s).metrics.connectionErrors = s.metrics.connectionErrors + 1
    ∧ (onError ws s).metrics.messagesReceived = s.metrics.messagesReceived
    ∧ (onError ws s).metrics.messagesSent = s.metrics.messagesSent
    ∧ (onError ws s).metrics.messageErrors = s.metrics.messageErrors
    ∧ (onError ws s).metrics.responseTimes = s.metrics.responseTimes
    ∧ (onError ws s).metrics.activeConnections = s.metrics.activeConnections
    ∧ (onError ws s).conns = s.conns := by
  simp [onError, counterConnectionErrorsInc]

/-! ## Runs: invariants over event sequences -/

theorem run_nil (ser : WebsocketMessage → Bytes)
    (de : Bytes → Except DecodeError WebsocketMessage) (s : ServerState) :
    run ser de s [] = s := rfl

theorem run_cons (ser : WebsocketMessage → Bytes)
    (de : Bytes → Except DecodeError WebsocketMessage) (s : ServerState) (e : Event)
    (trace : List Event) :
    run ser de s (e :: trace) = run ser de (step ser de s e) trace := rfl

/-- The gauge after a run is its initial value plus the connections accepted minus the
connections closed. -/
theorem run_activeConnections (ser : WebsocketMessage → Bytes)
    (de : Bytes → Except DecodeError WebsocketMessage) (trace : List Event) (s : ServerState) :
    (run ser de s trace).metrics.activeConnections
      = s.metrics.activeConnections + (trace.countP Event.isConnection : Int)
        - (trace.countP Event.isClose : Int) := by
  induction trace generalizing s with
  | nil => simp [run_nil]
  | cons e rest ih =>
    rw [run_cons, ih]
    cases e with
    | connection ws =>
      simp [step, onConnection, wsSend, gaugeActiveConnectionsInc, Event.isConnection,
        Event.isClose]
      omega
    | message ws msg t0 t1 =>
      have hm : (step ser de s (.message ws msg t0 t1)).metrics.activeConnections
          = s.metrics.activeConnections := by
        cases msg with
        | str text => simp [step, onMessage, counterMessagesReceivedInc]
        | buffer b =>
          cases hd : de b <;>
            simp [step, onMessage, hd, wsSend, counterMessagesReceivedInc,
              counterMessagesSentInc, counterMessageErrorsInc,
              histogramServerResponseTimeObserve]
        | other fr => simp [step, onMessage, counterMessagesReceivedInc]
      rw [hm]
      simp [Event.isConnection, Event.isClose]
    | close ws =>
      simp [step, onClose, gaugeActiveConnectionsDec, Event.isConnection, Event.isClose]
      omega
    | error ws =>
      simp [step, onError, counterConnectionErrorsInc, Event.isConnection, Event.isClose]

/-- Every message event raises `messages_received_total` by one, and every binary one
raises exactly one of `messages_sent_total` and `message_errors_total`. -/
theorem run_counters (ser : WebsocketMessage → Bytes)
    (de : Bytes → Except DecodeError WebsocketMessage) (n : Nat) (trace : List Event)
    (s : ServerState) (hbin : ∀ e ∈ trace, e.binaryFromBelow n = true) :
    (run ser de s trace).metrics.messagesReceived
        = s.metrics.messagesReceived + ((List.range n).map
            (fun ws => trace.countP (Event.isMessageOn ws))).sum
    ∧ (run ser de s trace).metrics.messagesSent + (run ser de s trace).metrics.messageErrors
        + s.metrics.messagesReceived
        = s.metrics.messagesSent + s.metrics.messageErrors
          + (run ser de s trace).metrics.messagesReceived := by
  induction trace generalizing s with
  | nil => simp [run_nil]
  | cons e rest ih =>
    have hrest : ∀ e ∈ rest, e.binaryFromBelow n = true :=
      fun e he => hbin e (List.mem_cons_of_mem _ he)
    have he := hbin e (List.mem_cons_self _ _)
    obtain ⟨ih1, ih2⟩ := ih (step ser de s e) hrest
    rw [run_cons]
    cases e with
    | connection ws =>
      have h1 : (step ser de s (.connection ws)).metrics.messagesReceived
          = s.metrics.messagesReceived := by
        simp [step, onConnection, wsSend, gaugeActiveConnectionsInc]
      have h2 : (step ser de s (.connection ws)).metrics.messagesSent
          = s.metrics.messagesSent := by
        simp [step, onConnection, wsSend, gaugeActiveConnectionsInc]
      have h3 : (step ser de s (.connection ws)).metrics.messageErrors
          = s.metrics.messageErrors := by
        simp [step, onConnection, wsSend, gaugeActiveConnectionsInc]
      rw [h1] at ih1 ih2
      rw [h2, h3] at ih2
      refine ⟨?_, ih2⟩
      rw [ih1]
      simp [Event.isMessageOn]
    | close ws =>
      have h1 : (step ser de s (.close ws)).metrics.messagesReceived
          = s.metrics.messagesReceived := by
        simp [step, onClose, gaugeActiveConnectionsDec]
      have h2 : (step ser de s (.close ws)).metrics.messagesSent
          = s.metrics.messagesSent := by
        simp [step, onClose, gaugeActiveConnectionsDec]
      have h3 : (step ser de s (.close ws)).metrics.messageErrors
          = s.metrics.messageErrors := by
        simp [step, onClose, gaugeActiveConnectionsDec]
      rw [h1] at ih1 ih2
      rw [h2, h3] at ih2
      refine ⟨?_, ih2⟩
      rw [ih1]
      simp [Event.isMessageOn]
    | error ws =>
      have h1 : (step ser de s (.error ws)).metrics.messagesReceived
          = s.metrics.messagesReceived := by
        simp [step, onError, counterConnectionErrorsInc]
      have h2 : (step ser de s (.error ws)).metrics.messagesSent
          = s.metrics.messagesSent := by
        simp [step, onError, counterConnectionErrorsInc]
      have h3 : (step ser de s (.error ws)).metrics.messageErrors
          = s.metrics.messageErrors := by
        simp [step, onError, counterConnectionErrorsInc]
      rw [h1] at ih1 ih2
      rw [h2, h3] at ih2
      refine ⟨?_, ih2⟩
      rw [ih1]
      simp [Event.isMessageOn]
    | message ws msg t0 t1 =>
      cases msg with
      | str text => simp [Event.binaryFromBelow] at he
      | other fr => simp [Event.binaryFromBelow] at he
      | buffer b =>
        have hws : ws < n := by simpa [Event.binaryFromBelow] using he
        have h1 : (step ser de s (.message ws (.buffer b) t0 t1)).metrics.messagesReceived
            = s.metrics.messagesReceived + 1 := by
          cases hd : de b <;>
            simp [step, onMessage, hd, wsSend, counterMessagesReceivedInc,
              counterMessagesSentInc, counterMessageErrorsInc,
              histogramServerResponseTimeObserve]
        have h2 : (step ser de s (.message ws (.buffer b) t0 t1)).metrics.messagesSent
            + (step ser de s (.message ws (.buffer b) t0 t1)).metrics.messageErrors
            = s.metrics.messagesSent + s.metrics.messageErrors + 1 := by
          cases hd : de b <;>
            simp [step, onMessage, hd, wsSend, counterMessagesReceivedInc,
              counterMessagesSentInc, counterMessageErrorsInc,
              histogramServerResponseTimeObserve] <;> omega
        have hsum : ((List.range n).map (fun w =>
              (Event.message ws (.buffer b) t0 t1 :: rest).countP (Event.isMessageOn w))).sum
            = ((List.range n).map (fun w => rest.countP (Event.isMessageOn w))).sum + 1 := by
          have hfun : (fun w => (Event.message ws (.buffer b) t0 t1 :: rest).countP
                (Event.isMessageOn w))
              = fun w => rest.countP (Event.isMessageOn w) + if w = ws then 1 else 0 := by
            funext w
            by_cases hw : ws = w
            · subst hw
              simp [List.countP_cons, Event.isMessageOn]
            · have hw2 : ¬ w = ws := fun h => hw h.symm
              simp [List.countP_cons, Event.isMessageOn, hw, hw2]
          rw [hfun, List.sum_map_add]
          congr 1
          rw [List.sum_map_eq_nsmul_single ws]
          · simp [List.count_eq_one_of_mem, List.nodup_range, hws]
          · intro w hw _
            simp [hw]
        refine ⟨?_, ?_⟩
        · rw [ih1, h1, hsum]
          omega
        · rw [h1] at ih2
          omega

/-- Events other than the acceptance of `ws` extend the frames queued on `ws` by the
decodable binary frames delivered on it, in order. -/
theorem run_outbox (ser : WebsocketMessage → Bytes)
    (de : Bytes → Except DecodeError WebsocketMessage) (ws : Nat) (trace : List Event)
    (s : ServerState) (h : ∀ e ∈ trace, e ≠ Event.connection ws) :
    ((run ser de s trace).conns ws).outbox
      = (s.conns ws).outbox ++ decodableFrames de (receivedOn ws trace) := by
  induction trace generalizing s with
  | nil => simp [run_nil, receivedOn, decodableFrames]
  | cons e rest ih =>
    have hrest : ∀ e ∈ rest, e ≠ Event.connection ws :=
      fun e he => h e (List.mem_cons_of_mem _ he)
    have he := h e (List.mem_cons_self _ _)
    rw [run_cons, ih _ hrest]
    cases e with
    | connection w =>
      have hw : ws ≠ w := fun hh => he (by rw [hh])
      simp [step, onConnection, wsSend, gaugeActiveConnectionsInc, receivedOn,
        Function.update_noteq hw]
    | close w =>
      by_cases hw : ws = w
      · subst hw
        simp [step, onClose, gaugeActiveConnectionsDec, receivedOn]
      · simp [step, onClose, gaugeActiveConnectionsDec, receivedOn, Function.update_noteq hw]
    | error w => simp [step, onError, counterConnectionErrorsInc, receivedOn]
    | message w msg t0 t1 =>
      by_cases hw : w = ws
      · subst hw
        cases msg with
        | str text =>
          simp [step, onMessage, counterMessagesReceivedInc, receivedOn, decodableFrames]
        | other fr =>
          simp [step, onMessage, counterMessagesReceivedInc, receivedOn, decodableFrames]
        | buffer b =>
          cases hd : de b <;>
            simp [step, onMessage, hd, wsSend, counterMessagesReceivedInc,
              counterMessagesSentInc, counterMessageErrorsInc,
              histogramServerResponseTimeObserve, receivedOn, decodableFrames]
      · have hw2 : ws ≠ w := fun hh => hw hh.symm
        have hc : (step ser de s (.message w msg t0 t1)).conns ws = s.conns ws := by
          cases msg with
          | str text => simp [step, onMessage, counterMessagesReceivedInc]
          | other fr => simp [step, onMessage, counterMessagesReceivedInc]
          | buffer b =>
            cases hd : de b <;>
              simp [step, onMessage, hd, wsSend, counterMessagesReceivedInc,
                counterMessagesSentInc, counterMessageErrorsInc,
                histogramServerResponseTimeObserve, Function.update_noteq hw2]
        rw [hc]
        simp [receivedOn, hw]

/-! ## Claims about runs -/

/-- C4 (gauge correctness): from a gauge of 0, after any event sequence containing `K`
connection events and `J ≤ K` close events, interleaved in any order with any message and
error events, `websocket_active_connections` reads exactly `K - J`. -/
theorem gauge_correctness (ser : WebsocketMessage → Bytes)
    (de : Bytes → Except DecodeError WebsocketMessage) (trace : List Event) (s : ServerState)
    (K J : Nat) (h0 : s.metrics.activeConnections = 0)
    (hK : trace.countP Event.isConnection = K) (hJ : trace.countP Event.isClose = J)
    (hJK : J ≤ K) :
    (run ser de s trace).metrics.activeConnections = ((K - J : Nat) : Int) := by
  rw [run_activeConnections, h0, hK, hJ]
  omega

/-- Witness for C4: three sockets accepted, two of them closed, with a message and an
error in between. -/
theorem gauge_correctness_witness :
    (run (serializeBinary true) deserializeBinary ServerState.init
      [.connection 0, .connection 1, .message 0 (.buffer [10, 1, 97]) 0 1, .close 0,
        .connection 2, .error 1, .close 1]).metrics.activeConnections = ((3 - 2 : Nat) : Int) :=
  gauge_correctness (serializeBinary true) deserializeBinary
    [.connection 0, .connection 1, .message 0 (.buffer [10, 1, 97]) 0 1, .close 0,
      .connection 2, .error 1, .close 1] ServerState.init 3 2 rfl (by decide) (by decide)
    (by decide)

/-- C3 (message accounting): from zeroed metrics, for every `N` and `M` and every event
sequence in which each of the sockets `0, ..., N - 1` delivers `M` messages, every message
being a binary frame from one of these sockets (in any interleaving, connection, close and
error events allowed in between), the run ends with `messages_received_total = N * M` and
`messages_sent_total = messages_received_total - message_errors_total`. -/
theorem message_accounting (ser : WebsocketMessage → Bytes)
    (de : Bytes → Except DecodeError WebsocketMessage) (N M : Nat) (trace : List Event)
    (s : ServerState) (h0 : s.metrics = Metrics.zero)
    (hbin : ∀ e ∈ trace, e.binaryFromBelow N = true)
    (hM : ∀ ws, ws < N → trace.countP (Event.isMessageOn ws) = M) :
    (run ser de s trace).metrics.messagesReceived = N * M
    ∧ (run ser de s trace).metrics.messagesSent
        = (run ser de s trace).metrics.messagesReceived
          - (run ser de s trace).metrics.messageErrors
    ∧ (run ser de s trace).metrics.messageErrors
        ≤ (run ser de s trace).metrics.messagesReceived := by
  obtain ⟨h1, h2⟩ := run_counters ser de N trace s hbin
  have hsum : ((List.range N).map (fun ws => trace.countP (Event.isMessageOn ws))).sum
      = N * M := by
    have hmap : (List.range N).map (fun ws => trace.countP (Event.isMessageOn ws))
        = (List.range N).map (fun _ => M) := by
      apply List.map_congr_left
      intro ws hws
      exact hM ws (List.mem_range.mp hws)
    rw [hmap]
    simp
  rw [h0] at h1 h2
  simp only [Metrics.zero] at h1 h2
  rw [hsum] at h1
  refine ⟨by omega, by omega, by omega⟩

/-- Witness for C3: two sockets, two binary frames each, interleaved; two of the four
frames are truncated encodings. -/
theorem message_accounting_witness :
    (run (serializeBinary true) deserializeBinary ServerState.init
      [.connection 0, .connection 1, .message 1 (.buffer [10, 1, 97]) 0 1,
        .message 0 (.buffer [10, 17]) 2 2, .message 0 (.buffer [18, 1, 98]) 3 4,
        .message 1 (.buffer [10]) 5 5, .close 1]).metrics.messagesReceived = 2 * 2 :=
  (message_accounting (serializeBinary true) deserializeBinary 2 2
    [.connection 0, .connection 1, .message 1 (.buffer [10, 1, 97]) 0 1,
      .message 0 (.buffer [10, 17]) 2 2, .message 0 (.buffer [18, 1, 98]) 3 4,
      .message 1 (.buffer [10]) 5 5, .close 1] ServerState.init rfl (by decide)
    (by decide)).1

/-- C9 (per-connection ordering): once socket `ws` is accepted, and whatever events of
this and other sockets follow (no second acceptance of `ws`), the frames the server has
queued on `ws` are the greeting followed by exactly the binary frames received on `ws`
that deserialise, in receipt order and unmodified; text frames, other payloads and
undecodable frames contribute nothing. -/
theorem per_connection_ordering (ser : WebsocketMessage → Bytes)
    (de : Bytes → Except DecodeError WebsocketMessage) (ws : Nat) (trace : List Event)
    (s : ServerState) (h : ∀ e ∈ trace, e ≠ Event.connection ws) :
    ((run ser de s (.connection ws :: trace)).conns ws).outbox
      = ser initialMessage :: decodableFrames de (receivedOn ws trace) := by
  rw [run_cons, run_outbox ser de ws trace _ h]
  simp [step, onConnection, wsSend, gaugeActiveConnectionsInc]

/-- Witness for C9: socket 0 receives a valid frame, a text frame, a truncated frame and
another valid frame, with traffic of socket 1 in between. -/
theorem per_connection_ordering_witness :
    ((run (serializeBinary true) deserializeBinary ServerState.init
      (.connection 0 :: [.message 0 (.buffer [10, 1, 97]) 0 1, .connection 1,
        .message 0 (.str "ping") 2 2, .message 1 (.buffer [18, 1, 98]) 3 3,
        .message 0 (.buffer [10, 17]) 4 4, .message 0 (.buffer [26, 1, 99]) 5 6])).conns
        0).outbox
      = serializeBinary true initialMessage :: decodableFrames deserializeBinary
          (receivedOn 0 [.message 0 (.buffer [10, 1, 97]) 0 1, .connection 1,
            .message 0 (.str "ping") 2 2, .message 1 (.buffer [18, 1, 98]) 3 3,
            .message 0 (.buffer [10, 17]) 4 4, .message 0 (.buffer [26, 1, 99]) 5 6])
    ∧ decodableFrames deserializeBinary
          (receivedOn 0 [.message 0 (.buffer [10, 1, 97]) 0 1, .connection 1,
            .message 0 (.str "ping") 2 2, .message 1 (.buffer [18, 1, 98]) 3 3,
            .message 0 (.buffer [10, 17]) 4 4, .message 0 (.buffer [26, 1, 99]) 5 6])
        = [[10, 1, 97], [26, 1, 99]] :=
  ⟨per_connection_ordering (serializeBinary true) deserializeBinary 0
    [.message 0 (.buffer [10, 1, 97]) 0 1, .connection 1,
      .message 0 (.str "ping") 2 2, .message 1 (.buffer [18, 1, 98]) 3 3,
      .message 0 (.buffer [10, 17]) 4 4, .message 0 (.buffer [26, 1, 99]) 5 6]
    ServerState.init (by decide), by decide⟩

/-! ## Codec: varints and UTF-8 -/

/-- Reading back a written varint yields the value and leaves the following bytes. -/
theorem decodeVarint_encodeVarintAux (rest : Bytes) (fuel n : Nat) (h : n ≤ fuel) :
    decodeVarint (encodeVarintAux fuel n ++ rest) = some (n, rest) := by
  induction fuel generalizing n with
  | zero =>
    have hn : n = 0 := by omega
    subst hn
    simp [encodeVarintAux, decodeVarint]
  | succ fuel ih =>
    by_cases hlt : n < 128
    · simp [encodeVarintAux, decodeVarint, hlt]
    · have hb : ¬ (n % 128 + 128 < 128) := by omega
      have hrec := ih (n / 128) (by omega)
      simp only [encodeVarintAux, hlt, if_false, List.cons_append, decodeVarint, hb, hrec]
      congr 2
      omega

theorem decodeVarint_encodeVarint (n : Nat) (rest : Bytes) :
    decodeVarint (encodeVarint n ++ rest) = some (n, rest) :=
  decodeVarint_encodeVarintAux rest n n (Nat.le_refl n)

/-- A written varint is never empty. -/
theorem encodeVarintAux_length_pos (fuel n : Nat) : 0 < (encodeVarintAux fuel n).length := by
  cases fuel with
  | zero => simp [encodeVarintAux]
  | succ fuel =>
    by_cases hlt : n < 128 <;> simp [encodeVarintAux, hlt]

/-- A proper prefix of a written varint does not read as a varint. -/
theorem decodeVarint_take_encodeVarintAux (fuel n j : Nat) (h : n ≤ fuel)
    (hj : j < (encodeVarintAux fuel n).length) :
    decodeVarint ((encodeVarintAux fuel n).take j) = none := by
  induction fuel generalizing n j with
  | zero =>
    have hj0 : j = 0 := by simpa [encodeVarintAux] using hj
    subst hj0
    simp [decodeVarint]
  | succ fuel ih =>
    by_cases hlt : n < 128
    · have hj0 : j = 0 := by simpa [encodeVarintAux, hlt] using hj
      subst hj0
      simp [decodeVarint]
    · cases j with
      | zero => simp [decodeVarint]
      | succ j =>
        have hb : ¬ (n % 128 + 128 < 128) := by omega
        have hj2 : j < (encodeVarintAux fuel (n / 128)).length := by
          simpa [encodeVarintAux, hlt] using hj
        have hrec := ih (n / 128) j (by omega) hj2
        simp only [encodeVarintAux, hlt, if_false, List.take_succ_cons, decodeVarint, hb, hrec]

/-- Reading a varint consumes at least one byte. -/
theorem decodeVarint_length (bs : Bytes) (v : Nat) (rest : Bytes)
    (h : decodeVarint bs = some (v, rest)) : rest.length < bs.length := by
  induction bs generalizing v rest with
  | nil => simp [decodeVarint] at h
  | cons b bs ih =>
    by_cases hb : b < 128
    · simp [decodeVarint, hb] at h
      obtain ⟨_, h2⟩ := h
      subst h2
      simp
    · simp only [decodeVarint, hb, if_false] at h
      cases hd : decodeVarint bs with
      | none => simp [hd] at h
      | some p =>
        obtain ⟨v1, rest1⟩ := p
        simp [hd] at h
        obtain ⟨_, h2⟩ := h
        subst h2
        have := ih v1 rest1 hd
        simp
        omega

/-- Decoding the bytes of one scalar value followed by `rest` yields that value followed
by the decoding of `rest`. -/
theorem utf8Go_encodeChar (c : Char) (rest : Bytes) :
    utf8Go 0 0 0 (utf8EncodeChar c ++ rest)
      = (utf8Go 0 0 0 rest).map (fun cs => c :: cs) := by
  have hv : c.toNat < 0xD800 ∨ (0xDFFF < c.toNat ∧ c.toNat < 0x110000) := c.valid
  by_cases h1 : c.toNat < 0x80
  · simp [utf8EncodeChar, h1, utf8Go]
  · by_cases h2 : c.toNat < 0x800
    · have e : (0xC0 + c.toNat / 64 - 0xC0) * 64 + (0x80 + c.toNat % 64 - 0x80) = c.toNat := by
        omega
      have a1 : ¬ (0xC0 + c.toNat / 64 < 0x80) := by omega
      have a2 : ¬ (0xC0 + c.toNat / 64 < 0xC2) := by omega
      have a3 : 0xC0 + c.toNat / 64 < 0xE0 := by omega
      have a4 : isContinuation (0x80 + c.toNat % 64) = true := by
        simp [isContinuation]; omega
      have a5 : 0x80 ≤ c.toNat
          ∧ (c.toNat < 0xD800 ∨ (0xDFFF < c.toNat ∧ c.toNat < 0x110000)) := by omega
      simp only [utf8EncodeChar, h1, h2, if_false, if_true, List.cons_append, List.nil_append,
        utf8Go, a1, a2, a3, a4, e, a5, Char.ofNat_toNat, one_ne_zero, and_self]
    · by_cases h3 : c.toNat < 0x10000
      · have e : ((0xE0 + c.toNat / 4096 - 0xE0) * 64 + (0x80 + c.toNat / 64 % 64 - 0x80)) * 64
            + (0x80 + c.toNat % 64 - 0x80) = c.toNat := by omega
        have a1 : ¬ (0xE0 + c.toNat / 4096 < 0x80) := by omega
        have a2 : ¬ (0xE0 + c.toNat / 4096 < 0xC2) := by omega
        have a3 : ¬ (0xE0 + c.toNat / 4096 < 0xE0) := by omega
        have a4 : 0xE0 + c.toNat / 4096 < 0xF0 := by omega
        have a5 : isContinuation (0x80 + c.toNat / 64 % 64) = true := by
          simp [isContinuation]; omega
        have a6 : isContinuation (0x80 + c.toNat % 64) = true := by
          simp [isContinuation]; omega
        have a7 : 0x800 ≤ c.toNat
            ∧ (c.toNat < 0xD800 ∨ (0xDFFF < c.toNat ∧ c.toNat < 0x110000)) := by omega
        have p2 : (2 : Nat) - 1 = 1 := rfl
        have n2 : ¬ ((2 : Nat) = 0) := by decide
        have n21 : ¬ ((2 : Nat) = 1) := by decide
        simp only [utf8EncodeChar, h1, h2, h3, if_false, if_true, List.cons_append,
          List.nil_append, utf8Go, a1, a2, a3, a4, a5, a6, a7, e, Char.ofNat_toNat,
          one_ne_zero, and_self, p2, n2, n21]
      · have e : (((0xF0 + c.toNat / 262144 - 0xF0) * 64
              + (0x80 + c.toNat / 4096 % 64 - 0x80)) * 64
              + (0x80 + c.toNat / 64 % 64 - 0x80)) * 64 + (0x80 + c.toNat % 64 - 0x80)
            = c.toNat := by omega
        have a1 : ¬ (0xF0 + c.toNat / 262144 < 0x80) := by omega
        have a2 : ¬ (0xF0 + c.toNat / 262144 < 0xC2) := by omega
        have a3 : ¬ (0xF0 + c.toNat / 262144 < 0xE0) := by omega
        have a4 : ¬ (0xF0 + c.toNat / 262144 < 0xF0) := by omega
        have a5 : 0xF0 + c.toNat / 262144 < 0xF5 := by omega
        have a6 : isContinuation (0x80 + c.toNat / 4096 % 64) = true := by
          simp [isContinuation]; omega
        have a7 : isContinuation (0x80 + c.toNat / 64 % 64) = true := by
          simp [isContinuation]; omega
        have a8 : isContinuation (0x80 + c.toNat % 64) = true := by
          simp [isContinuation]; omega
        have a9 : 0x10000 ≤ c.toNat
            ∧ (c.toNat < 0xD800 ∨ (0xDFFF < c.toNat ∧ c.toNat < 0x110000)) := by omega
        have p3 : (3 : Nat) - 1 = 2 := rfl
        have p2 : (2 : Nat) - 1 = 1 := rfl
        have n3 : ¬ ((3 : Nat) = 0) := by decide
        have n31 : ¬ ((3 : Nat) = 1) := by decide
        have n2 : ¬ ((2 : Nat) = 0) := by decide
        have n21 : ¬ ((2 : Nat) = 1) := by decide
        simp only [utf8EncodeChar, h1, h2, h3, if_false, if_true, List.cons_append,
          List.nil_append, utf8Go, a1, a2, a3, a4, a5, a6, a7, a8, a9, e, Char.ofNat_toNat,
          one_ne_zero, and_self, p3, p2, n3, n31, n2, n21]

/-- UTF-8 round trip on sequences of scalar values. -/
theorem utf8DecodeChars_encodeChars (cs : List Char) :
    utf8DecodeChars (utf8EncodeChars cs) = some cs := by
  induction cs with
  | nil => simp [utf8EncodeChars, utf8DecodeChars, utf8Go]
  | cons c cs ih =>
    simp only [utf8DecodeChars] at ih
    simp [utf8EncodeChars, utf8DecodeChars, utf8Go_encodeChar, ih]

/-- UTF-8 round trip on strings. -/
theorem utf8Decode_utf8Encode (s : String) : utf8Decode (utf8Encode s) = some s := by
  simp [utf8Decode, utf8Encode, utf8DecodeChars_encodeChars]

/-! ## Codec: fields -/

theorem deserializeFields_nil (fuel : Nat) (m : WebsocketMessage) :
    deserializeFields fuel [] m = .ok m := by
  cases fuel <;> rfl

/-- One round of the field loop consumes at least one byte. -/
theorem readField_length (bs : Bytes) (m : WebsocketMessage) (rest : Bytes)
    (m1 : WebsocketMessage) (h : readField bs m = .ok (rest, m1)) :
    rest.length < bs.length := by
  unfold readField at h
  cases hd : decodeVarint bs with
  | none => simp [hd] at h
  | some p =>
    obtain ⟨tag, r0⟩ := p
    have h0 := decodeVarint_length bs tag r0 hd
    simp only [hd] at h
    by_cases c1 : tag / 8 = 0
    · simp [c1] at h
    · by_cases c2 : tag % 8 = 2
      · cases hd1 : decodeVarint r0 with
        | none => simp [c1, c2, hd1] at h
        | some q =>
          obtain ⟨len, r1⟩ := q
          have h1 := decodeVarint_length r0 len r1 hd1
          by_cases d1 : r1.length < len
          · simp [c1, c2, hd1, d1] at h
          · by_cases d2 : tag / 8 ≤ 3
            · cases hu : utf8Decode (List.take len r1) with
              | none => simp [c1, c2, hd1, d1, d2, hu] at h
              | some str =>
                simp [c1, c2, hd1, d1, d2, hu] at h
                obtain ⟨h2, _⟩ := h
                subst h2
                simp only [List.length_drop]
                omega
            · simp [c1, c2, hd1, d1, d2] at h
              obtain ⟨h2, _⟩ := h
              subst h2
              simp only [List.length_drop]
              omega
      · by_cases c3 : tag / 8 ≤ 3
        · simp [c1, c2, c3] at h
        · by_cases c4 : tag % 8 = 0
          · cases hd1 : decodeVarint r0 with
            | none => simp [c1, c2, c3, c4, hd1] at h
            | some q =>
              obtain ⟨v, r1⟩ := q
              have h1 := decodeVarint_length r0 v r1 hd1
              simp [c1, c2, c3, c4, hd1] at h
              obtain ⟨h2, _⟩ := h
              subst h2
              omega
          · by_cases c5 : tag % 8 = 1
            · by_cases d1 : r0.length < 8
              · simp [c1, c2, c3, c4, c5, d1] at h
              · simp [c1, c2, c3, c4, c5, d1] at h
                obtain ⟨h2, _⟩ := h
                subst h2
                simp only [List.length_drop]
                omega
            · by_cases c6 : tag % 8 = 5
              · by_cases d1 : r0.length < 4
                · simp [c1, c2, c3, c4, c5, c6, d1] at h
                · simp [c1, c2, c3, c4, c5, c6, d1] at h
                  obtain ⟨h2, _⟩ := h
                  subst h2
                  simp only [List.length_drop]
                  omega
              · simp [c1, c2, c3, c4, c5, c6] at h

/-- Fuel beyond the input length does not change the result of the field loop. -/
theorem deserializeFields_fuel (f1 f2 : Nat) (bs : Bytes) (m : WebsocketMessage)
    (h1 : bs.length ≤ f1) (h2 : bs.length ≤ f2) :
    deserializeFields f1 bs m = deserializeFields f2 bs m := by
  induction f1 generalizing f2 bs m with
  | zero =>
    have hb : bs = [] := List.length_eq_zero.mp (by omega)
    subst hb
    rw [deserializeFields_nil, deserializeFields_nil]
  | succ f1 ih =>
    cases bs with
    | nil => rw [deserializeFields_nil, deserializeFields_nil]
    | cons b bs =>
      cases f2 with
      | zero => simp at h2
      | succ f2 =>
        rw [deserializeFields, deserializeFields]
        cases hr : readField (b :: bs) m with
        | error e => rfl
        | ok p =>
          obtain ⟨rest, m1⟩ := p
          have hl := readField_length _ _ _ _ hr
          simp only [List.length_cons] at hl h1 h2
          exact ih f2 rest m1 (by omega) (by omega)

/-- One round of the field loop never reports exhausted fuel. -/
theorem readField_ne_outOfFuel (bs : Bytes) (m : WebsocketMessage) :
    readField bs m ≠ .error .outOfFuel := by
  intro h
  unfold readField at h
  cases hd : decodeVarint bs with
  | none => simp [hd] at h
  | some p =>
    obtain ⟨tag, r0⟩ := p
    simp only [hd] at h
    by_cases c1 : tag / 8 = 0
    · simp [c1] at h
    · by_cases c2 : tag % 8 = 2
      · cases hd1 : decodeVarint r0 with
        | none => simp [c1, c2, hd1] at h
        | some q =>
          obtain ⟨len, r1⟩ := q
          by_cases d1 : r1.length < len
          · simp [c1, c2, hd1, d1] at h
          · by_cases d2 : tag / 8 ≤ 3
            · cases hu : utf8Decode (List.take len r1) <;>
                simp [c1, c2, hd1, d1, d2, hu] at h
            · simp [c1, c2, hd1, d1, d2] at h
      · by_cases c3 : tag / 8 ≤ 3
        · simp [c1, c2, c3] at h
        · by_cases c4 : tag % 8 = 0
          · cases hd1 : decodeVarint r0 <;> simp [c1, c2, c3, c4, hd1] at h
          · by_cases c5 : tag % 8 = 1
            · by_cases d1 : r0.length < 8 <;> simp [c1, c2, c3, c4, c5, d1] at h
            · by_cases c6 : tag % 8 = 5
              · by_cases d1 : r0.length < 4 <;> simp [c1, c2, c3, c4, c5, c6, d1] at h
              · simp [c1, c2, c3, c4, c5, c6] at h

/-- With fuel equal to the input length the field loop never runs out of fuel: the
`outOfFuel` result is unreachable from `deserializeBinary`. -/
theorem deserializeFields_ne_outOfFuel (fuel : Nat) (bs : Bytes) (m : WebsocketMessage)
    (h : bs.length ≤ fuel) : deserializeFields fuel bs m ≠ .error .outOfFuel := by
  induction fuel generalizing bs m with
  | zero =>
    have hb : bs = [] := List.length_eq_zero.mp (by omega)
    subst hb
    simp [deserializeFields_nil]
  | succ fuel ih =>
    cases bs with
    | nil => simp [deserializeFields_nil]
    | cons b bs =>
      rw [deserializeFields]
      cases hr : readField (b :: bs) m with
      | error e =>
        intro he
        have h2 := readField_ne_outOfFuel (b :: bs) m
        rw [hr] at h2
        simp only at he
        injection he with he
        subst he
        exact h2 rfl
      | ok p =>
        obtain ⟨rest, m1⟩ := p
        have hl := readField_length _ _ _ _ hr
        simp only [List.length_cons] at hl h
        exact ih rest m1 (by omega)

/-- A value below 128 is written as the single byte itself. -/
theorem encodeVarint_small (n : Nat) (h : n < 128) : encodeVarint n = [n] := by
  cases n with
  | zero => rfl
  | succ n => simp [encodeVarint, encodeVarintAux, h]

/-- A round of the field loop on a non-empty input that reads a field continues with the
rest of the input. -/
theorem deserializeFields_step (fuel : Nat) (bs : Bytes) (m : WebsocketMessage)
    (rest : Bytes) (m1 : WebsocketMessage) (hfuel : bs.length ≤ fuel)
    (hr : readField bs m = .ok (rest, m1)) :
    deserializeFields fuel bs m = deserializeFields rest.length rest m1 := by
  have hl := readField_length bs m rest m1 hr
  cases bs with
  | nil => simp at hl
  | cons b bs =>
    cases fuel with
    | zero => simp at hfuel
    | succ fuel =>
      rw [deserializeFields, hr]
      simp only [List.length_cons] at hl hfuel
      exact deserializeFields_fuel fuel rest.length rest m1 (by omega) (Nat.le_refl _)

/-- A round of the field loop on a non-empty input that fails ends the loop with that
error. -/
theorem deserializeFields_error (fuel : Nat) (bs : Bytes) (m : WebsocketMessage)
    (e : DecodeError) (hne : bs ≠ []) (hfuel : bs.length ≤ fuel)
    (hr : readField bs m = .error e) :
    deserializeFields fuel bs m = .error e := by
  cases bs with
  | nil => exact absurd rfl hne
  | cons b bs =>
    cases fuel with
    | zero => simp at hfuel
    | succ fuel => rw [deserializeFields, hr]

/-- Reading a written string field yields the string and leaves the following bytes. -/
theorem readField_stringField (k : Nat) (hk1 : 1 ≤ k) (hk3 : k ≤ 3) (s : String)
    (rest : Bytes) (m : WebsocketMessage) :
    readField (encodeVarint (k * 8 + 2) ++ encodeVarint (utf8Encode s).length
      ++ utf8Encode s ++ rest) m = .ok (rest, m.setField k s) := by
  have ht : decodeVarint (encodeVarint (k * 8 + 2) ++ encodeVarint (utf8Encode s).length
      ++ utf8Encode s ++ rest)
      = some (k * 8 + 2, encodeVarint (utf8Encode s).length ++ (utf8Encode s ++ rest)) := by
    rw [List.append_assoc, List.append_assoc]
    exact decodeVarint_encodeVarint _ _
  have hlen : decodeVarint (encodeVarint (utf8Encode s).length ++ (utf8Encode s ++ rest))
      = some ((utf8Encode s).length, utf8Encode s ++ rest) := decodeVarint_encodeVarint _ _
  have c1 : ¬ ((k * 8 + 2) / 8 = 0) := by omega
  have c2 : (k * 8 + 2) % 8 = 2 := by omega
  have c3 : (k * 8 + 2) / 8 = k := by omega
  have c4 : ¬ (k = 0) := by omega
  have d1 : ¬ ((utf8Encode s ++ rest).length < (utf8Encode s).length) := by
    simp
  unfold readField
  simp only [ht, hlen, c2, d1, if_false, if_true, c3, c4, hk3, List.take_left, List.drop_left,
    utf8Decode_utf8Encode]

/-- Reading a written string field cut short, but not to nothing, fails as truncated. -/
theorem readField_truncated (k : Nat) (hk1 : 1 ≤ k) (hk3 : k ≤ 3) (s : String) (j : Nat)
    (m : WebsocketMessage) (hj0 : 0 < j)
    (hj : j < (encodeVarint (k * 8 + 2) ++ encodeVarint (utf8Encode s).length
      ++ utf8Encode s).length) :
    readField ((encodeVarint (k * 8 + 2) ++ encodeVarint (utf8Encode s).length
      ++ utf8Encode s).take j) m = .error .truncated := by
  have htag : encodeVarint (k * 8 + 2) = [k * 8 + 2] := encodeVarint_small _ (by omega)
  have c0 : k * 8 + 2 < 128 := by omega
  have c1 : ¬ ((k * 8 + 2) / 8 = 0) := by omega
  have c2 : (k * 8 + 2) % 8 = 2 := by omega
  rw [htag] at hj ⊢
  obtain ⟨i, rfl⟩ : ∃ i, j = i + 1 := ⟨j - 1, by omega⟩
  simp only [List.singleton_append, List.cons_append, List.take_succ_cons, List.length_cons,
    List.length_append, List.length_nil, List.nil_append] at hj ⊢
  unfold readField
  simp only [decodeVarint, c0, if_true, c1, c2, if_false]
  by_cases hi : i < (encodeVarint (utf8Encode s).length).length
  · have hv : decodeVarint (List.take i (encodeVarint (utf8Encode s).length
        ++ utf8Encode s)) = none := by
      rw [List.take_append_of_le_length (Nat.le_of_lt hi)]
      exact decodeVarint_take_encodeVarintAux _ _ i (Nat.le_refl _) hi
    simp only [hv]
  · have hv : decodeVarint (List.take i (encodeVarint (utf8Encode s).length
        ++ utf8Encode s))
        = some ((utf8Encode s).length,
            List.take (i - (encodeVarint (utf8Encode s).length).length) (utf8Encode s)) := by
      rw [List.take_append_eq_append_take, List.take_of_length_le (by omega)]
      exact decodeVarint_encodeVarint _ _
    have hshort : (List.take (i - (encodeVarint (utf8Encode s).length).length)
        (utf8Encode s)).length < (utf8Encode s).length := by
      simp only [List.length_take]
      omega
    simp only [hv, hshort, if_true]

/-- A string field is either left out, the string being empty, or written in full. -/
theorem encodeStringField_cases (omitEmpty : Bool) (k : Nat) (s : String) :
    (encodeStringField omitEmpty k s = [] ∧ s = "")
    ∨ encodeStringField omitEmpty k s
        = encodeVarint (k * 8 + 2) ++ encodeVarint (utf8Encode s).length ++ utf8Encode s := by
  by_cases h : (omitEmpty && decide (s.data = [])) = true
  · left
    refine ⟨by simp [encodeStringField, h], ?_⟩
    have hd : s.data = [] := by
      simp only [Bool.and_eq_true, decide_eq_true_eq] at h
      exact h.2
    cases s
    simp_all
  · right
    simp [encodeStringField, h]

/-- The field loop over a string field followed by `rest` assigns the field and carries on
with `rest`, provided the field was empty before. -/
theorem deserializeFields_stringField (omitEmpty : Bool) (k : Nat) (hk1 : 1 ≤ k)
    (hk3 : k ≤ 3) (s : String) (rest : Bytes) (m : WebsocketMessage) (fuel : Nat)
    (hfuel : (encodeStringField omitEmpty k s ++ rest).length ≤ fuel)
    (hm : m.setField k "" = m) :
    deserializeFields fuel (encodeStringField omitEmpty k s ++ rest) m
      = deserializeFields rest.length rest (m.setField k s) := by
  rcases encodeStringField_cases omitEmpty k s with ⟨he, hs⟩ | he
  · rw [he] at hfuel ⊢
    rw [hs, hm]
    exact deserializeFields_fuel _ _ _ _ hfuel (Nat.le_refl _)
  · rw [he] at hfuel ⊢
    exact deserializeFields_step fuel _ m rest _ hfuel (readField_stringField k hk1 hk3 s rest m)

/-- The field loop over a string field fails with the error with which what follows the
field fails. -/
theorem deserializeFields_after_field (omitEmpty : Bool) (k : Nat) (hk1 : 1 ≤ k) (hk3 : k ≤ 3)
    (s : String) (rest : Bytes) (m : WebsocketMessage) (fuel : Nat) (err : DecodeError)
    (hfuel : (encodeStringField omitEmpty k s ++ rest).length ≤ fuel)
    (h : ∀ m1, deserializeFields rest.length rest m1 = .error err) :
    deserializeFields fuel (encodeStringField omitEmpty k s ++ rest) m = .error err := by
  rcases encodeStringField_cases omitEmpty k s with ⟨he, _⟩ | he
  · rw [he] at hfuel ⊢
    rw [List.nil_append] at hfuel ⊢
    rw [deserializeFields_fuel fuel rest.length rest m hfuel (Nat.le_refl _)]
    exact h m
  · rw [he] at hfuel ⊢
    rw [deserializeFields_step fuel _ m rest _ hfuel (readField_stringField k hk1 hk3 s rest m)]
    exact h _

/-- The field loop fails as truncated on a string field cut short, but not to nothing. -/
theorem deserializeFields_truncated_field (omitEmpty : Bool) (k : Nat) (hk1 : 1 ≤ k)
    (hk3 : k ≤ 3) (s : String) (j : Nat) (m : WebsocketMessage) (hj0 : 0 < j)
    (hj : j < (encodeStringField omitEmpty k s).length) :
    deserializeFields ((encodeStringField omitEmpty k s).take j).length
      ((encodeStringField omitEmpty k s).take j) m = .error .truncated := by
  rcases encodeStringField_cases omitEmpty k s with ⟨he, _⟩ | he
  · rw [he] at hj
    simp at hj
  · rw [he] at hj ⊢
    apply deserializeFields_error _ _ _ _ _ (Nat.le_refl _)
      (readField_truncated k hk1 hk3 s j m hj0 hj)
    intro hnil
    have hl := congrArg List.length hnil
    simp only [List.length_take, List.length_nil] at hl
    omega

/-- The greeting survives the codec, with either writer. -/
theorem greeting_round_trip (omitEmpty : Bool) :
    deserializeBinary (serializeBinary omitEmpty initialMessage)
      = .ok { content := "Connection established successfully!", senderId := "server",
              receiverId := "client" } := by
  cases omitEmpty <;> rfl

/-! ## Codec: the reader against the grammar -/

/-- A scalar value survives the conversion to `Char` and back. -/
theorem toNat_ofNat_valid (v : Nat) (h : v < 0xD800 ∨ (0xDFFF < v ∧ v < 0x110000)) :
    (Char.ofNat v).toNat = v := by
  have hv : v.isValidChar := h
  simp only [Char.ofNat, hv, dite_true, Char.ofNatAux, Char.toNat]
  simp [UInt32.toNat]

/-- What the varint reader accepts is a varint followed by the bytes it leaves. -/
theorem decodeVarint_sound (bs : Bytes) (v : Nat) (rest : Bytes)
    (h : decodeVarint bs = some (v, rest)) : ∃ t, IsVarint t v ∧ bs = t ++ rest := by
  induction bs generalizing v rest with
  | nil => simp [decodeVarint] at h
  | cons b bs ih =>
    by_cases hb : b < 128
    · simp [decodeVarint, hb] at h
      obtain ⟨h1, h2⟩ := h
      subst h1 h2
      exact ⟨[b], IsVarint.last b hb, rfl⟩
    · simp only [decodeVarint, hb, if_false] at h
      cases hd : decodeVarint bs with
      | none => simp [hd] at h
      | some p =>
        obtain ⟨v1, rest1⟩ := p
        simp [hd] at h
        obtain ⟨h1, h2⟩ := h
        subst h1 h2
        obtain ⟨t, ht, hbs⟩ := ih v1 rest1 hd
        exact ⟨b :: t, IsVarint.more b t v1 (by omega) ht, by rw [hbs]; rfl⟩

/-- The varint reader accepts every varint and leaves the bytes after it. -/
theorem decodeVarint_complete (t : Bytes) (v : Nat) (rest : Bytes) (h : IsVarint t v) :
    decodeVarint (t ++ rest) = some (v, rest) := by
  induction h with
  | last b hb => simp [decodeVarint, hb]
  | more b t v hb _ ih =>
    have hb2 : ¬ b < 128 := by omega
    simp only [List.cons_append, decodeVarint, hb2, if_false, List.append_eq, ih]

/-- A varint has at least one byte. -/
theorem IsVarint.length_pos (t : Bytes) (v : Nat) (h : IsVarint t v) : 0 < t.length := by
  cases h <;> simp

/-- What `encodeVarint` writes is a varint. -/
theorem isVarint_encodeVarintAux (fuel n : Nat) (h : n ≤ fuel) :
    IsVarint (encodeVarintAux fuel n) n := by
  induction fuel generalizing n with
  | zero =>
    have hn : n = 0 := by omega
    subst hn
    exact IsVarint.last 0 (by decide)
  | succ fuel ih =>
    by_cases hlt : n < 128
    · simp only [encodeVarintAux, hlt, if_true]
      exact IsVarint.last n hlt
    · simp only [encodeVarintAux, hlt, if_false]
      have hrec := ih (n / 128) (by omega)
      have hv := IsVarint.more (n % 128 + 128) _ _ (by omega) hrec
      have he : (n % 128 + 128) % 128 + 128 * (n / 128) = n := by omega
      rw [he] at hv
      exact hv

/-- The automaton's step on a continuation byte that completes a scalar value. -/
theorem utf8Go_one (acc lo b : Nat) (rest : Bytes) (cs : List Char)
    (h : utf8Go 1 acc lo (b :: rest) = some cs) :
    isContinuation b = true ∧ lo ≤ acc * 64 + (b - 0x80)
    ∧ (acc * 64 + (b - 0x80) < 0xD800
        ∨ (0xDFFF < acc * 64 + (b - 0x80) ∧ acc * 64 + (b - 0x80) < 0x110000))
    ∧ ∃ cs1, utf8Go 0 0 0 rest = some cs1
        ∧ cs = Char.ofNat (acc * 64 + (b - 0x80)) :: cs1 := by
  rw [utf8Go] at h
  simp only [one_ne_zero, if_false, if_true] at h
  by_cases hc : isContinuation b = true
  · simp only [hc, if_true] at h
    by_cases hv : lo ≤ acc * 64 + (b - 0x80)
        ∧ (acc * 64 + (b - 0x80) < 0xD800
          ∨ (0xDFFF < acc * 64 + (b - 0x80) ∧ acc * 64 + (b - 0x80) < 0x110000))
    · simp only [hv, and_self, if_true] at h
      cases hr : utf8Go 0 0 0 rest with
      | none => simp [hr] at h
      | some cs1 =>
        simp [hr] at h
        exact ⟨hc, hv.1, hv.2, cs1, rfl, h.symm⟩
    · simp only [hv, if_false] at h
      exact absurd h (by simp)
  · simp only [hc] at h
    exact absurd h (by simp)

/-- The automaton's step on a continuation byte that does not complete a scalar value. -/
theorem utf8Go_more (pending acc lo b : Nat) (rest : Bytes) (cs : List Char)
    (h : utf8Go (pending + 2) acc lo (b :: rest) = some cs) :
    isContinuation b = true ∧ utf8Go (pending + 1) (acc * 64 + (b - 0x80)) lo rest = some cs := by
  rw [utf8Go] at h
  have h0 : ¬ (pending + 2 = 0) := by omega
  have h1 : ¬ (pending + 2 = 1) := by omega
  have h2 : pending + 2 - 1 = pending + 1 := by omega
  simp only [h0, h1, h2, if_false] at h
  by_cases hc : isContinuation b = true
  · simp only [hc, if_true] at h
    exact ⟨hc, h⟩
  · simp only [hc] at h
    exact absurd h (by simp)

/-- The automaton does not stop in the middle of a scalar value. -/
theorem utf8Go_pending_nil (pending acc lo : Nat) (cs : List Char)
    (h : utf8Go (pending + 1) acc lo [] = some cs) : False := by
  rw [utf8Go] at h
  simp at h

theorem isContinuation_iff (b : Nat) : isContinuation b = true ↔ 0x80 ≤ b ∧ b < 0xC0 := by
  simp [isContinuation]

/-- The bytes written for a valid scalar value given as a number. -/
theorem utf8EncodeChar_ofNat (v : Nat) (h : v < 0xD800 ∨ (0xDFFF < v ∧ v < 0x110000)) :
    utf8EncodeChar (Char.ofNat v)
      = if v < 0x80 then [v]
        else if v < 0x800 then [0xC0 + v / 64, 0x80 + v % 64]
        else if v < 0x10000 then [0xE0 + v / 4096, 0x80 + v / 64 % 64, 0x80 + v % 64]
        else [0xF0 + v / 262144, 0x80 + v / 4096 % 64, 0x80 + v / 64 % 64, 0x80 + v % 64] := by
  simp only [utf8EncodeChar, toNat_ofNat_valid v h]

/-- What the UTF-8 automaton accepts from its initial state is the encoding of the scalar
values it returns. -/
theorem utf8Go_sound (n : Nat) (bs : Bytes) (cs : List Char) (hl : bs.length ≤ n)
    (h : utf8Go 0 0 0 bs = some cs) : utf8EncodeChars cs = bs := by
  induction n generalizing bs cs with
  | zero =>
    have hb : bs = [] := List.length_eq_zero.mp (by omega)
    subst hb
    simp [utf8Go] at h
    subst h
    rfl
  | succ n ih =>
    cases bs with
    | nil =>
      simp [utf8Go] at h
      subst h
      rfl
    | cons b0 rest =>
      simp only [List.length_cons] at hl
      rw [utf8Go] at h
      simp only [if_true] at h
      by_cases c1 : b0 < 0x80
      · simp only [c1, if_true] at h
        cases hr : utf8Go 0 0 0 rest with
        | none => simp [hr] at h
        | some cs1 =>
          simp [hr] at h
          subst h
          have hrec := ih rest cs1 (by omega) hr
          have hv : b0 < 0xD800 ∨ (0xDFFF < b0 ∧ b0 < 0x110000) := by omega
          simp only [utf8EncodeChars, utf8EncodeChar_ofNat b0 hv, c1, if_true, hrec,
            List.singleton_append]
      · by_cases c2 : b0 < 0xC2
        · simp [c1, c2] at h
        · by_cases c3 : b0 < 0xE0
          · simp only [c1, c2, c3, if_true, if_false] at h
            cases rest with
            | nil => exact (utf8Go_pending_nil 0 _ _ cs h).elim
            | cons b1 rest1 =>
              obtain ⟨k1, _, hv, cs1, hr, hcs⟩ := utf8Go_one _ _ b1 rest1 cs h
              rw [isContinuation_iff] at k1
              subst hcs
              simp only [List.length_cons] at hl
              have hrec := ih rest1 cs1 (by omega) hr
              have r1 : ¬ ((b0 - 0xC0) * 64 + (b1 - 0x80) < 0x80) := by omega
              have r2 : (b0 - 0xC0) * 64 + (b1 - 0x80) < 0x800 := by omega
              have e0 : 0xC0 + ((b0 - 0xC0) * 64 + (b1 - 0x80)) / 64 = b0 := by omega
              have e1 : 0x80 + ((b0 - 0xC0) * 64 + (b1 - 0x80)) % 64 = b1 := by omega
              simp only [utf8EncodeChars, utf8EncodeChar_ofNat _ hv, r1, r2, if_true, if_false,
                e0, e1, hrec, List.cons_append, List.nil_append]
          · by_cases c4 : b0 < 0xF0
            · simp only [c1, c2, c3, c4, if_true, if_false] at h
              cases rest with
              | nil => exact (utf8Go_pending_nil 1 _ _ cs h).elim
              | cons b1 rest1 =>
                obtain ⟨k1, h⟩ := utf8Go_more 0 _ _ b1 rest1 cs h
                rw [isContinuation_iff] at k1
                cases rest1 with
                | nil => exact (utf8Go_pending_nil 0 _ _ cs h).elim
                | cons b2 rest2 =>
                  obtain ⟨k2, hlo, hv, cs1, hr, hcs⟩ := utf8Go_one _ _ b2 rest2 cs h
                  rw [isContinuation_iff] at k2
                  subst hcs
                  simp only [List.length_cons] at hl
                  have hrec := ih rest2 cs1 (by omega) hr
                  have r1 : ¬ (((b0 - 0xE0) * 64 + (b1 - 0x80)) * 64 + (b2 - 0x80) < 0x80) := by
                    omega
                  have r2 : ¬ (((b0 - 0xE0) * 64 + (b1 - 0x80)) * 64 + (b2 - 0x80) < 0x800) := by
                    omega
                  have r3 : ((b0 - 0xE0) * 64 + (b1 - 0x80)) * 64 + (b2 - 0x80) < 0x10000 := by
                    omega
                  have e0 : 0xE0 + (((b0 - 0xE0) * 64 + (b1 - 0x80)) * 64 + (b2 - 0x80)) / 4096
                      = b0 := by omega
                  have e1 : 0x80 + (((b0 - 0xE0) * 64 + (b1 - 0x80)) * 64 + (b2 - 0x80)) / 64 % 64
                      = b1 := by omega
                  have e2 : 0x80 + (((b0 - 0xE0) * 64 + (b1 - 0x80)) * 64 + (b2 - 0x80)) % 64
                      = b2 := by omega
                  simp only [utf8EncodeChars, utf8EncodeChar_ofNat _ hv, r1, r2, r3, if_true,
                    if_false, e0, e1, e2, hrec, List.cons_append, List.nil_append]
            · by_cases c5 : b0 < 0xF5
              · simp only [c1, c2, c3, c4, c5, if_true, if_false] at h
                cases rest with
                | nil => exact (utf8Go_pending_nil 2 _ _ cs h).elim
                | cons b1 rest1 =>
                  obtain ⟨k1, h⟩ := utf8Go_more 1 _ _ b1 rest1 cs h
                  rw [isContinuation_iff] at k1
                  cases rest1 with
                  | nil => exact (utf8Go_pending_nil 1 _ _ cs h).elim
                  | cons b2 rest2 =>
                    obtain ⟨k2, h⟩ := utf8Go_more 0 _ _ b2 rest2 cs h
                    rw [isContinuation_iff] at k2
                    cases rest2 with
                    | nil => exact (utf8Go_pending_nil 0 _ _ cs h).elim
                    | cons b3 rest3 =>
                      obtain ⟨k3, hlo, hv, cs1, hr, hcs⟩ := utf8Go_one _ _ b3 rest3 cs h
                      rw [isContinuation_iff] at k3
                      subst hcs
                      simp only [List.length_cons] at hl
                      have hrec := ih rest3 cs1 (by omega) hr
                      have r1 : ¬ ((((b0 - 0xF0) * 64 + (b1 - 0x80)) * 64 + (b2 - 0x80)) * 64
                          + (b3 - 0x80) < 0x80) := by omega
                      have r2 : ¬ ((((b0 - 0xF0) * 64 + (b1 - 0x80)) * 64 + (b2 - 0x80)) * 64
                          + (b3 - 0x80) < 0x800) := by omega
                      have r3 : ¬ ((((b0 - 0xF0) * 64 + (b1 - 0x80)) * 64 + (b2 - 0x80)) * 64
                          + (b3 - 0x80) < 0x10000) := by omega
                      have e0 : 0xF0 + ((((b0 - 0xF0) * 64 + (b1 - 0x80)) * 64 + (b2 - 0x80)) * 64
                          + (b3 - 0x80)) / 262144 = b0 := by omega
                      have e1 : 0x80 + ((((b0 - 0xF0) * 64 + (b1 - 0x80)) * 64 + (b2 - 0x80)) * 64
                          + (b3 - 0x80)) / 4096 % 64 = b1 := by omega
                      have e2 : 0x80 + ((((b0 - 0xF0) * 64 + (b1 - 0x80)) * 64 + (b2 - 0x80)) * 64
                          + (b3 - 0x80)) / 64 % 64 = b2 := by omega
                      have e3 : 0x80 + ((((b0 - 0xF0) * 64 + (b1 - 0x80)) * 64 + (b2 - 0x80)) * 64
                          + (b3 - 0x80)) % 64 = b3 := by omega
                      simp only [utf8EncodeChars, utf8EncodeChar_ofNat _ hv, r1, r2, r3, if_true,
                        if_false, e0, e1, e2, e3, hrec, List.cons_append, List.nil_append]
              · simp [c1, c2, c3, c4, c5] at h

/-- What the UTF-8 decoder accepts is the UTF-8 encoding of the string it returns. -/
theorem utf8Decode_sound (p : Bytes) (s : String) (h : utf8Decode p = some s) :
    utf8Encode s = p := by
  unfold utf8Decode utf8DecodeChars at h
  cases hr : utf8Go 0 0 0 p with
  | none => simp [hr] at h
  | some cs =>
    simp [hr] at h
    subst h
    exact utf8Go_sound p.length p cs (Nat.le_refl _) hr

/-- Bytes that are not the UTF-8 encoding of any string are refused by the decoder. -/
theorem utf8Decode_eq_none (p : Bytes) (h : ∀ s, utf8Encode s ≠ p) : utf8Decode p = none := by
  cases hd : utf8Decode p with
  | none => rfl
  | some s => exact absurd (utf8Decode_sound p s hd) (h s)

/-- What one round of the field loop accepts is a well-formed field record followed by the
bytes it leaves. -/
theorem readField_sound (bs : Bytes) (m : WebsocketMessage) (rest : Bytes)
    (m1 : WebsocketMessage) (h : readField bs m = .ok (rest, m1)) :
    ∃ r, IsField r m m1 ∧ bs = r ++ rest := by
  unfold readField at h
  cases hd : decodeVarint bs with
  | none => simp [hd] at h
  | some p =>
    obtain ⟨tag, r0⟩ := p
    obtain ⟨t, ht, hbs⟩ := decodeVarint_sound bs tag r0 hd
    simp only [hd] at h
    by_cases c1 : tag / 8 = 0
    · simp [c1] at h
    · by_cases c2 : tag % 8 = 2
      · have htag : tag / 8 * 8 + 2 = tag := by omega
        cases hd1 : decodeVarint r0 with
        | none => simp [c1, c2, hd1] at h
        | some q =>
          obtain ⟨len, r1⟩ := q
          obtain ⟨l, hl, hr0⟩ := decodeVarint_sound r0 len r1 hd1
          by_cases d1 : r1.length < len
          · simp [c1, c2, hd1, d1] at h
          · have hlen : (List.take len r1).length = len := by
              simp only [List.length_take]
              omega
            by_cases d2 : tag / 8 ≤ 3
            · cases hu : utf8Decode (List.take len r1) with
              | none => simp [c1, c2, hd1, d1, d2, hu] at h
              | some str =>
                simp [c1, c2, hd1, d1, d2, hu] at h
                obtain ⟨h2, h3⟩ := h
                have henc := utf8Decode_sound _ _ hu
                refine ⟨t ++ l ++ utf8Encode str, ?_, ?_⟩
                · rw [← h3]
                  refine IsField.string t l (tag / 8) str m ?_ (by omega) d2 ?_
                  · rw [htag]
                    exact ht
                  · rw [henc, hlen]
                    exact hl
                · rw [hbs, hr0, henc, ← h2]
                  simp only [List.append_assoc, List.take_append_drop]
            · simp [c1, c2, hd1, d1, d2] at h
              obtain ⟨h2, h3⟩ := h
              refine ⟨t ++ l ++ List.take len r1, ?_, ?_⟩
              · rw [← h3]
                refine IsField.unknownBytes t l (List.take len r1) (tag / 8) m ?_ (by omega) ?_
                · rw [htag]
                  exact ht
                · rw [hlen]
                  exact hl
              · rw [hbs, hr0, ← h2]
                simp only [List.append_assoc, List.take_append_drop]
      · by_cases c3 : tag / 8 ≤ 3
        · simp [c1, c2, c3] at h
        · by_cases c4 : tag % 8 = 0
          · have htag : tag / 8 * 8 = tag := by omega
            cases hd1 : decodeVarint r0 with
            | none => simp [c1, c2, c3, c4, hd1] at h
            | some q =>
              obtain ⟨v, r1⟩ := q
              obtain ⟨x, hx, hr0⟩ := decodeVarint_sound r0 v r1 hd1
              simp [c1, c2, c3, c4, hd1] at h
              obtain ⟨h2, h3⟩ := h
              refine ⟨t ++ x, ?_, ?_⟩
              · rw [← h3]
                refine IsField.unknownVarint t x (tag / 8) v m ?_ (by omega) hx
                rw [htag]
                exact ht
              · rw [hbs, hr0, ← h2]
                simp only [List.append_assoc]
          · by_cases c5 : tag % 8 = 1
            · have htag : tag / 8 * 8 + 1 = tag := by omega
              by_cases d1 : r0.length < 8
              · simp [c1, c2, c3, c4, c5, d1] at h
              · simp [c1, c2, c3, c4, c5, d1] at h
                obtain ⟨h2, h3⟩ := h
                refine ⟨t ++ List.take 8 r0, ?_, ?_⟩
                · rw [← h3]
                  refine IsField.unknownFixed64 t (List.take 8 r0) (tag / 8) m ?_ (by omega) ?_
                  · rw [htag]
                    exact ht
                  · simp only [List.length_take]
                    omega
                · rw [hbs, ← h2]
                  simp only [List.append_assoc, List.take_append_drop]
            · by_cases c6 : tag % 8 = 5
              · have htag : tag / 8 * 8 + 5 = tag := by omega
                by_cases d1 : r0.length < 4
                · simp [c1, c2, c3, c4, c5, c6, d1] at h
                · simp [c1, c2, c3, c4, c5, c6, d1] at h
                  obtain ⟨h2, h3⟩ := h
                  refine ⟨t ++ List.take 4 r0, ?_, ?_⟩
                  · rw [← h3]
                    refine IsField.unknownFixed32 t (List.take 4 r0) (tag / 8) m ?_ (by omega) ?_
                    · rw [htag]
                      exact ht
                    · simp only [List.length_take]
                      omega
                  · rw [hbs, ← h2]
                    simp only [List.append_assoc, List.take_append_drop]
              · simp [c1, c2, c3, c4, c5, c6] at h

/-- One round of the field loop accepts every well-formed field record and leaves the
bytes after it. -/
theorem readField_complete (r : Bytes) (m m1 : WebsocketMessage) (rest : Bytes)
    (h : IsField r m m1) : readField (r ++ rest) m = .ok (rest, m1) := by
  cases h with
  | string t l k s _ ht hk1 hk3 hl =>
    have e1 : decodeVarint (t ++ l ++ utf8Encode s ++ rest)
        = some (k * 8 + 2, l ++ (utf8Encode s ++ rest)) := by
      rw [List.append_assoc, List.append_assoc]
      exact decodeVarint_complete t _ _ ht
    have e2 := decodeVarint_complete l _ (utf8Encode s ++ rest) hl
    have c2 : (k * 8 + 2) % 8 = 2 := by omega
    have c3 : (k * 8 + 2) / 8 = k := by omega
    have c4 : ¬ (k = 0) := by omega
    have d1 : ¬ ((utf8Encode s ++ rest).length < (utf8Encode s).length) := by simp
    unfold readField
    simp only [e1, e2, c2, c3, c4, d1, hk3, if_false, if_true, List.take_left, List.drop_left,
      utf8Decode_utf8Encode]
  | unknownBytes t l p k _ ht hk hl =>
    have e1 : decodeVarint (t ++ l ++ p ++ rest) = some (k * 8 + 2, l ++ (p ++ rest)) := by
      rw [List.append_assoc, List.append_assoc]
      exact decodeVarint_complete t _ _ ht
    have e2 := decodeVarint_complete l _ (p ++ rest) hl
    have c2 : (k * 8 + 2) % 8 = 2 := by omega
    have c3 : (k * 8 + 2) / 8 = k := by omega
    have c4 : ¬ (k = 0) := by omega
    have c5 : ¬ (k ≤ 3) := by omega
    have d1 : ¬ ((p ++ rest).length < p.length) := by simp
    unfold readField
    simp only [e1, e2, c2, c3, c4, c5, d1, if_false, if_true, List.drop_left]
  | unknownVarint t x k v _ ht hk hx =>
    have e1 : decodeVarint (t ++ x ++ rest) = some (k * 8, x ++ rest) := by
      rw [List.append_assoc]
      exact decodeVarint_complete t _ _ ht
    have e2 := decodeVarint_complete x _ rest hx
    have c2b : (k * 8) % 8 = 0 := by omega
    have c3 : (k * 8) / 8 = k := by omega
    have c4 : ¬ (k = 0) := by omega
    have c5 : ¬ (k ≤ 3) := by omega
    unfold readField
    simp only [e1, e2, c2b, c3, c4, c5, if_false, if_true]
    simp
  | unknownFixed64 t p k _ ht hk hp =>
    have e1 : decodeVarint (t ++ p ++ rest) = some (k * 8 + 1, p ++ rest) := by
      rw [List.append_assoc]
      exact decodeVarint_complete t _ _ ht
    have c2b : (k * 8 + 1) % 8 = 1 := by omega
    have c3 : (k * 8 + 1) / 8 = k := by omega
    have c4 : ¬ (k = 0) := by omega
    have c5 : ¬ (k ≤ 3) := by omega
    have d1 : ¬ ((p ++ rest).length < 8) := by
      simp only [List.length_append]
      omega
    have d2 : List.drop 8 (p ++ rest) = rest := by
      rw [← hp]
      exact List.drop_left p rest
    unfold readField
    simp only [e1, c2b, c3, c4, c5, d1, d2, if_false, if_true]
    simp
  | unknownFixed32 t p k _ ht hk hp =>
    have e1 : decodeVarint (t ++ p ++ rest) = some (k * 8 + 5, p ++ rest) := by
      rw [List.append_assoc]
      exact decodeVarint_complete t _ _ ht
    have c2c : (k * 8 + 5) % 8 = 5 := by omega
    have c3 : (k * 8 + 5) / 8 = k := by omega
    have c4 : ¬ (k = 0) := by omega
    have c5 : ¬ (k ≤ 3) := by omega
    have d1 : ¬ ((p ++ rest).length < 4) := by
      simp only [List.length_append]
      omega
    have d2 : List.drop 4 (p ++ rest) = rest := by
      rw [← hp]
      exact List.drop_left p rest
    unfold readField
    simp only [e1, c2c, c3, c4, c5, d1, d2, if_false, if_true]
    simp

/-- What the field loop accepts is a sequence of well-formed field records, and the
message it returns is the one they give. -/
theorem deserializeFields_sound (fuel : Nat) (bs : Bytes) (m m1 : WebsocketMessage)
    (h : deserializeFields fuel bs m = .ok m1) : IsEncoding bs m m1 := by
  induction fuel generalizing bs m with
  | zero =>
    cases bs with
    | nil =>
      rw [deserializeFields_nil] at h
      injection h with h
      subst h
      exact IsEncoding.done m
    | cons b bs => simp [deserializeFields] at h
  | succ fuel ih =>
    cases bs with
    | nil =>
      rw [deserializeFields_nil] at h
      injection h with h
      subst h
      exact IsEncoding.done m
    | cons b bs =>
      rw [deserializeFields] at h
      cases hr : readField (b :: bs) m with
      | error e => simp [hr] at h
      | ok p =>
        obtain ⟨rest, m2⟩ := p
        simp only [hr] at h
        obtain ⟨r, hf, hbs⟩ := readField_sound _ _ _ _ hr
        rw [hbs]
        exact IsEncoding.field r rest m m2 m1 hf (ih rest m2 h)

/-- The field loop accepts every sequence of well-formed field records and returns the
message they give. -/
theorem deserializeFields_complete (bs : Bytes) (m m1 : WebsocketMessage)
    (h : IsEncoding bs m m1) : deserializeFields bs.length bs m = .ok m1 := by
  induction h with
  | done m => exact deserializeFields_nil _ _
  | field r rest m m2 m3 hr _ ih =>
    rw [deserializeFields_step _ (r ++ rest) m rest m2 (Nat.le_refl _)
      (readField_complete r m m2 rest hr)]
    exact ih

/-- The reader returns a message exactly on the well-formed encodings, and then the
message they encode. -/
theorem deserializeBinary_ok_iff (b : Bytes) (m1 : WebsocketMessage) :
    deserializeBinary b = .ok m1 ↔ IsEncoding b emptyMessage m1 :=
  ⟨fun h => deserializeFields_sound _ _ _ _ h, fun h => deserializeFields_complete _ _ _ h⟩

/-! ## Codec: cut and overwritten encodings -/

/-- A proper prefix of an encoding whose end falls strictly inside a field is refused as
truncated. -/
theorem deserializeBinary_cut_inside_field (omitEmpty : Bool) (m : WebsocketMessage) (n : Nat)
    (hn : n < (serializeBinary omitEmpty m).length)
    (hb : n ∉ fieldBoundaries omitEmpty m) :
    deserializeBinary ((serializeBinary omitEmpty m).take n) = .error .truncated := by
  simp only [fieldBoundaries, fieldStart, List.mem_cons, List.mem_singleton, List.not_mem_nil,
    or_false, not_or, if_true, if_false, OfNat.ofNat_ne_one, Nat.succ_ne_self, reduceCtorEq]
    at hb
  obtain ⟨hb0, hb1, hb2⟩ := hb
  unfold deserializeBinary
  unfold serializeBinary at hn ⊢
  simp only [List.append_assoc, List.length_append] at hn ⊢
  by_cases h1 : n < (encodeStringField omitEmpty 1 m.content).length
  · rw [List.take_append_of_le_length (Nat.le_of_lt h1)]
    exact deserializeFields_truncated_field omitEmpty 1 (by decide) (by decide) _ n _
      (by omega) h1
  · rw [List.take_append_eq_append_take, List.take_of_length_le (by omega)]
    apply deserializeFields_after_field omitEmpty 1 (by decide) (by decide) _ _ _ _ _
      (Nat.le_refl _)
    intro m1
    by_cases h2 : n - (encodeStringField omitEmpty 1 m.content).length
        < (encodeStringField omitEmpty 2 m.senderId).length
    · rw [List.take_append_of_le_length (Nat.le_of_lt h2)]
      exact deserializeFields_truncated_field omitEmpty 2 (by decide) (by decide) _ _ _
        (by omega) h2
    · rw [List.take_append_eq_append_take, List.take_of_length_le (by omega)]
      apply deserializeFields_after_field omitEmpty 2 (by decide) (by decide) _ _ _ _ _
        (Nat.le_refl _)
      intro m2
      exact deserializeFields_truncated_field omitEmpty 3 (by decide) (by decide) _ _ _
        (by omega) (by omega)

/-- An encoding cut where field 2 starts decodes to the message with field 1 only. -/
theorem deserializeBinary_cut_before_field2 (omitEmpty : Bool) (m : WebsocketMessage) :
    deserializeBinary ((serializeBinary omitEmpty m).take (fieldStart omitEmpty m 2))
      = .ok { content := m.content, senderId := "", receiverId := "" } := by
  have hcut : (serializeBinary omitEmpty m).take (fieldStart omitEmpty m 2)
      = encodeStringField omitEmpty 1 m.content := by
    unfold serializeBinary fieldStart
    simp only [List.append_assoc, OfNat.ofNat_ne_one, if_false, if_true]
    exact List.take_left _ _
  rw [hcut]
  unfold deserializeBinary
  have h1 := deserializeFields_stringField omitEmpty 1 (by decide) (by decide) m.content []
    { content := "", senderId := "", receiverId := "" }
    (encodeStringField omitEmpty 1 m.content).length (by simp) rfl
  rw [List.append_nil] at h1
  rw [h1]
  rfl

/-- An encoding cut where field 3 starts decodes to the message with fields 1 and 2 only. -/
theorem deserializeBinary_cut_before_field3 (omitEmpty : Bool) (m : WebsocketMessage) :
    deserializeBinary ((serializeBinary omitEmpty m).take (fieldStart omitEmpty m 3))
      = .ok { content := m.content, senderId := m.senderId, receiverId := "" } := by
  have hcut : (serializeBinary omitEmpty m).take (fieldStart omitEmpty m 3)
      = encodeStringField omitEmpty 1 m.content ++ encodeStringField omitEmpty 2 m.senderId := by
    unfold serializeBinary fieldStart
    have h31 : ¬ ((3 : Nat) = 1) := by decide
    have h32 : ¬ ((3 : Nat) = 2) := by decide
    simp only [h31, h32, if_false, ← List.length_append]
    exact List.take_left _ _
  rw [hcut]
  unfold deserializeBinary
  rw [deserializeFields_stringField omitEmpty 1 (by decide) (by decide) m.content _ _ _
    (Nat.le_refl _) rfl]
  have h2 := deserializeFields_stringField omitEmpty 2 (by decide) (by decide) m.senderId []
    (({ content := "", senderId := "", receiverId := "" } : WebsocketMessage).setField 1
      m.content) (encodeStringField omitEmpty 2 m.senderId).length (by simp) rfl
  rw [List.append_nil] at h2
  rw [h2]
  rfl

/-- Overwriting the middle part of three with as many bytes replaces just that part. -/
theorem overwrite_middle (a x z p : Bytes) (h : p.length = x.length) :
    overwrite (a ++ x ++ z) a.length p = a ++ p ++ z := by
  unfold overwrite
  rw [List.append_assoc a x z, List.take_left, ← List.append_assoc a x z, h,
    ← List.length_append, List.drop_left]

/-- A string field whose payload is not valid UTF-8 is refused. -/
theorem readField_invalidUtf8 (k : Nat) (hk1 : 1 ≤ k) (hk3 : k ≤ 3) (p rest : Bytes)
    (m : WebsocketMessage) (hp : utf8Decode p = none) :
    readField (encodeVarint (k * 8 + 2) ++ encodeVarint p.length ++ p ++ rest) m
      = .error .invalidUtf8 := by
  have ht : decodeVarint (encodeVarint (k * 8 + 2) ++ encodeVarint p.length ++ p ++ rest)
      = some (k * 8 + 2, encodeVarint p.length ++ (p ++ rest)) := by
    rw [List.append_assoc, List.append_assoc]
    exact decodeVarint_encodeVarint _ _
  have hlen : decodeVarint (encodeVarint p.length ++ (p ++ rest)) = some (p.length, p ++ rest) :=
    decodeVarint_encodeVarint _ _
  have c2 : (k * 8 + 2) % 8 = 2 := by omega
  have c3 : (k * 8 + 2) / 8 = k := by omega
  have c4 : ¬ (k = 0) := by omega
  have d1 : ¬ ((p ++ rest).length < p.length) := by simp
  unfold readField
  simp only [ht, hlen, c2, d1, if_false, if_true, c3, c4, hk3, List.take_left, hp]

/-- The field loop refuses an input that starts with a string field whose payload has the
length of the UTF-8 encoding of `s` but is not valid UTF-8. -/
theorem deserializeFields_invalidUtf8 (k : Nat) (hk1 : 1 ≤ k) (hk3 : k ≤ 3) (s : String)
    (p rest : Bytes) (m : WebsocketMessage) (hlen : p.length = (utf8Encode s).length)
    (hp : ∀ s1, utf8Encode s1 ≠ p) :
    deserializeFields
      (encodeVarint (k * 8 + 2) ++ encodeVarint (utf8Encode s).length ++ p ++ rest).length
      (encodeVarint (k * 8 + 2) ++ encodeVarint (utf8Encode s).length ++ p ++ rest) m
      = .error .invalidUtf8 := by
  rw [← hlen]
  apply deserializeFields_error _ _ _ _ _ (Nat.le_refl _)
    (readField_invalidUtf8 k hk1 hk3 p rest m (utf8Decode_eq_none p hp))
  intro hnil
  have hl := congrArg List.length hnil
  have hpos := encodeVarintAux_length_pos (k * 8 + 2) (k * 8 + 2)
  simp only [List.length_append, List.length_nil, encodeVarint] at hl
  omega

/-- A field whose payload is overwritten by bytes that are not valid UTF-8 was written,
with a non-empty payload. -/
theorem encodeStringField_of_overwritten (omitEmpty : Bool) (k : Nat) (s : String) (p : Bytes)
    (hlen : p.length = (utf8Encode s).length) (hp : ∀ s1, utf8Encode s1 ≠ p) :
    encodeStringField omitEmpty k s
      = encodeVarint (k * 8 + 2) ++ encodeVarint (utf8Encode s).length ++ utf8Encode s := by
  rcases encodeStringField_cases omitEmpty k s with ⟨_, hs⟩ | he
  · exfalso
    subst hs
    have h0 : p = [] := List.length_eq_zero.mp (by rw [hlen]; rfl)
    exact hp "" (by rw [h0]; rfl)
  · exact he

/-- Overwriting the payload of a written string field that follows the bytes `pre`. -/
theorem overwrite_payload (pre post : Bytes) (k : Nat) (hk3 : k ≤ 3) (s : String) (p : Bytes)
    (hlen : p.length = (utf8Encode s).length) :
    overwrite (pre ++ (encodeVarint (k * 8 + 2) ++ encodeVarint (utf8Encode s).length
        ++ utf8Encode s) ++ post)
      (pre.length + 1 + (encodeVarint (utf8Encode s).length).length) p
      = pre ++ (encodeVarint (k * 8 + 2) ++ encodeVarint (utf8Encode s).length ++ p ++ post) := by
  have htag : encodeVarint (k * 8 + 2) = [k * 8 + 2] := encodeVarint_small _ (by omega)
  have ha : (pre ++ encodeVarint (k * 8 + 2) ++ encodeVarint (utf8Encode s).length).length
      = pre.length + 1 + (encodeVarint (utf8Encode s).length).length := by
    rw [htag]
    simp only [List.length_append, List.length_singleton]
  have hm := overwrite_middle
    (pre ++ encodeVarint (k * 8 + 2) ++ encodeVarint (utf8Encode s).length) (utf8Encode s) post
    p hlen
  rw [ha] at hm
  simp only [List.append_assoc] at hm ⊢
  exact hm

/-- Overwriting the payload of a string field of an encoding with as many bytes that are
not the UTF-8 encoding of any string gives bytes that are refused as invalid UTF-8. -/
theorem deserializeBinary_overwritten_payload (omitEmpty : Bool) (m : WebsocketMessage)
    (k : Nat) (p : Bytes) (hk1 : 1 ≤ k) (hk3 : k ≤ 3)
    (hlen : p.length = (utf8Encode (m.getField k)).length) (hp : ∀ s, utf8Encode s ≠ p) :
    deserializeBinary (overwrite (serializeBinary omitEmpty m) (payloadStart omitEmpty m k) p)
      = .error .invalidUtf8 := by
  have hk : k = 1 ∨ k = 2 ∨ k = 3 := by omega
  unfold deserializeBinary
  rcases hk with rfl | rfl | rfl
  · have hget : m.getField 1 = m.content := rfl
    rw [hget] at hlen
    have hw := encodeStringField_of_overwritten omitEmpty 1 m.content p hlen hp
    have he : overwrite (serializeBinary omitEmpty m) (payloadStart omitEmpty m 1) p
        = encodeVarint (1 * 8 + 2) ++ encodeVarint (utf8Encode m.content).length ++ p
          ++ (encodeStringField omitEmpty 2 m.senderId
            ++ encodeStringField omitEmpty 3 m.receiverId) := by
      have h := overwrite_payload [] (encodeStringField omitEmpty 2 m.senderId
        ++ encodeStringField omitEmpty 3 m.receiverId) 1 (by decide) m.content p hlen
      simp only [List.nil_append, List.length_nil, Nat.zero_add] at h
      unfold serializeBinary payloadStart fieldStart
      rw [hw, hget]
      simp only [if_true, Nat.zero_add, List.append_assoc] at h ⊢
      exact h
    rw [he]
    exact deserializeFields_invalidUtf8 1 (by decide) (by decide) m.content p _ _ hlen hp
  · have hget : m.getField 2 = m.senderId := rfl
    rw [hget] at hlen
    have hw := encodeStringField_of_overwritten omitEmpty 2 m.senderId p hlen hp
    have he : overwrite (serializeBinary omitEmpty m) (payloadStart omitEmpty m 2) p
        = encodeStringField omitEmpty 1 m.content
          ++ (encodeVarint (2 * 8 + 2) ++ encodeVarint (utf8Encode m.senderId).length ++ p
            ++ encodeStringField omitEmpty 3 m.receiverId) := by
      have h := overwrite_payload (encodeStringField omitEmpty 1 m.content)
        (encodeStringField omitEmpty 3 m.receiverId) 2 (by decide) m.senderId p hlen
      have h21 : ¬ ((2 : Nat) = 1) := by decide
      unfold serializeBinary payloadStart fieldStart
      rw [hw, hget]
      simp only [h21, if_true, if_false]
      exact h
    rw [he]
    apply deserializeFields_after_field omitEmpty 1 (by decide) (by decide) _ _ _ _ _
      (Nat.le_refl _)
    intro m1
    exact deserializeFields_invalidUtf8 2 (by decide) (by decide) m.senderId p _ _ hlen hp
  · have hget : m.getField 3 = m.receiverId := rfl
    rw [hget] at hlen
    have hw := encodeStringField_of_overwritten omitEmpty 3 m.receiverId p hlen hp
    have he : overwrite (serializeBinary omitEmpty m) (payloadStart omitEmpty m 3) p
        = encodeStringField omitEmpty 1 m.content
          ++ (encodeStringField omitEmpty 2 m.senderId
            ++ (encodeVarint (3 * 8 + 2) ++ encodeVarint (utf8Encode m.receiverId).length ++ p
              ++ [])) := by
      have h := overwrite_payload (encodeStringField omitEmpty 1 m.content
        ++ encodeStringField omitEmpty 2 m.senderId) [] 3 (by decide) m.receiverId p hlen
      have h31 : ¬ ((3 : Nat) = 1) := by decide
      have h32 : ¬ ((3 : Nat) = 2) := by decide
      unfold serializeBinary payloadStart fieldStart
      rw [hw, hget]
      simp only [h31, h32, if_false, List.length_append, List.append_nil, List.append_assoc]
        at h ⊢
      exact h
    rw [he]
    apply deserializeFields_after_field omitEmpty 1 (by decide) (by decide) _ _ _ _ _
      (Nat.le_refl _)
    intro m1
    apply deserializeFields_after_field omitEmpty 2 (by decide) (by decide) _ _ _ _ _
      (Nat.le_refl _)
    intro m2
    exact deserializeFields_invalidUtf8 3 (by decide) (by decide) m.receiverId p _ _ hlen hp

/-- Bytes that are not a well-formed encoding are refused with some decode error. -/
theorem deserializeBinary_error_of_not_encoding (b : Bytes)
    (h : ∀ m1, ¬ IsEncoding b emptyMessage m1) : ∃ err, deserializeBinary b = .error err := by
  cases hd : deserializeBinary b with
  | error err => exact ⟨err, rfl⟩
  | ok m1 => exact absurd ((deserializeBinary_ok_iff b m1).mp hd) (h m1)
/-! ## Claims about the codec -/

/-- C5 (codec round trip): for every triple of strings `(c, s, r)`, empty ones included,
and whether or not the writer leaves empty fields out, deserialising the serialisation of
the message with content `c`, senderId `s` and receiverId `r` succeeds and returns exactly
that message. -/
theorem codec_round_trip (omitEmpty : Bool) (c s r : String) :
    deserializeBinary (serializeBinary omitEmpty
      { content := c, senderId := s, receiverId := r })
      = .ok { content := c, senderId := s, receiverId := r } := by
  unfold deserializeBinary serializeBinary
  simp only [List.append_assoc]
  rw [deserializeFields_stringField omitEmpty 1 (by decide) (by decide) c _ _ _ (Nat.le_refl _)
    rfl]
  rw [deserializeFields_stringField omitEmpty 2 (by decide) (by decide) s _ _ _ (Nat.le_refl _)
    rfl]
  have h3 := deserializeFields_stringField omitEmpty 3 (by decide) (by decide) r []
    ((({ content := "", senderId := "", receiverId := "" } : WebsocketMessage).setField 1
      c).setField 2 s) (encodeStringField omitEmpty 3 r).length (by simp) rfl
  rw [List.append_nil] at h3
  rw [h3]
  rfl

/-- C8 (greeting on open): accepting a connection raises the active-connections gauge by
one and queues exactly one frame on the new socket, the serialisation of the message with
content "Connection established successfully!", senderId "server" and receiverId "client",
which deserialises to exactly these three fields; no other socket is touched and
`messages_sent_total` and `messages_received_total` keep their values. -/
theorem greeting_on_open (omitEmpty : Bool) (ws : Nat) (s : ServerState) :
    (onConnection (serializeBinary omitEmpty) ws s).metrics.activeConnections
        = s.metrics.activeConnections + 1
    ∧ ((onConnection (serializeBinary omitEmpty) ws s).conns ws).outbox
        = [serializeBinary omitEmpty initialMessage]
    ∧ deserializeBinary (serializeBinary omitEmpty initialMessage)
        = .ok { content := "Connection established successfully!", senderId := "server",
                receiverId := "client" }
    ∧ ((onConnection (serializeBinary omitEmpty) ws s).conns ws).isOpen = true
    ∧ (∀ c, c ≠ ws → (onConnection (serializeBinary omitEmpty) ws s).conns c = s.conns c)
    ∧ (onConnection (serializeBinary omitEmpty) ws s).metrics.messagesSent
        = s.metrics.messagesSent
    ∧ (onConnection (serializeBinary omitEmpty) ws s).metrics.messagesReceived
        = s.metrics.messagesReceived := by
  refine ⟨?_, ?_, ?_, ?_, ?_, ?_, ?_⟩
  · simp [onConnection, wsSend, gaugeActiveConnectionsInc]
  · simp [onConnection, wsSend, gaugeActiveConnectionsInc]
  · exact greeting_round_trip omitEmpty
  · simp [onConnection, wsSend, gaugeActiveConnectionsInc]
  · intro c hc
    simp [onConnection, wsSend, gaugeActiveConnectionsInc, Function.update_noteq hc]
  · simp [onConnection, wsSend, gaugeActiveConnectionsInc]
  · simp [onConnection, wsSend, gaugeActiveConnectionsInc]

/-- C6 as stated fails: cutting the 35-byte encoding of the hello message after its first
field (19 bytes), or to nothing, leaves a valid encoding that deserialises to a message
with the later fields empty, and overwriting its third byte ("H") with "J" gives the valid
encoding of another message. None of the three is rejected. -/
theorem malformed_input_accepted :
    (serializeBinary true helloMessage).length = 35
    ∧ deserializeBinary ((serializeBinary true helloMessage).take 19)
        = .ok { content := "Hello, WebSocket!", senderId := "", receiverId := "" }
    ∧ deserializeBinary ((serializeBinary true helloMessage).take 0)
        = .ok { content := "", senderId := "", receiverId := "" }
    ∧ deserializeBinary ((serializeBinary true helloMessage).set 2 74)
        = .ok { content := "Jello, WebSocket!", senderId := "client", receiverId := "server" } :=
  ⟨rfl, rfl, rfl, rfl⟩

/-- C6, as the codec has it: for every valid encoding `e` of a message, with either writer,
(1) a proper prefix of `e` whose end falls strictly inside a field is rejected with the
`truncated` decode error, while the prefixes that end where field 1, 2 or 3 starts are
themselves valid encodings and decode to the message made of the fields before the cut,
the later fields empty; (2) for every byte sequence `b`, so for every one obtained by
corrupting bytes of `e`, decode returns a message exactly when `b` is a well-formed
encoding of the schema, and then the message `b` encodes, never another value, and fails
with a decode error when `b` is not well formed; in particular (3) overwriting the payload
of a string field of `e` with as many bytes that are not the UTF-8 encoding of any string
is always rejected with the `invalidUtf8` decode error. -/
theorem malformed_input_rejected_unless_well_formed (omitEmpty : Bool)
    (m : WebsocketMessage) :
    (∀ n, n < (serializeBinary omitEmpty m).length → n ∉ fieldBoundaries omitEmpty m →
      deserializeBinary ((serializeBinary omitEmpty m).take n) = .error .truncated)
    ∧ deserializeBinary ((serializeBinary omitEmpty m).take (fieldStart omitEmpty m 1))
        = .ok { content := "", senderId := "", receiverId := "" }
    ∧ deserializeBinary ((serializeBinary omitEmpty m).take (fieldStart omitEmpty m 2))
        = .ok { content := m.content, senderId := "", receiverId := "" }
    ∧ deserializeBinary ((serializeBinary omitEmpty m).take (fieldStart omitEmpty m 3))
        = .ok { content := m.content, senderId := m.senderId, receiverId := "" }
    ∧ (∀ (b : Bytes) (m1 : WebsocketMessage),
        deserializeBinary b = .ok m1 ↔ IsEncoding b emptyMessage m1)
    ∧ (∀ b : Bytes, (∀ m1, ¬ IsEncoding b emptyMessage m1) →
        ∃ err, deserializeBinary b = .error err)
    ∧ (∀ (k : Nat) (p : Bytes), 1 ≤ k → k ≤ 3 →
        p.length = (utf8Encode (m.getField k)).length → (∀ s, utf8Encode s ≠ p) →
        deserializeBinary
            (overwrite (serializeBinary omitEmpty m) (payloadStart omitEmpty m k) p)
          = .error .invalidUtf8) := by
  refine ⟨?_, ?_, ?_, ?_, ?_, ?_, ?_⟩
  · intro n hn hb
    exact deserializeBinary_cut_inside_field omitEmpty m n hn hb
  · rfl
  · exact deserializeBinary_cut_before_field2 omitEmpty m
  · exact deserializeBinary_cut_before_field3 omitEmpty m
  · intro b m1
    exact deserializeBinary_ok_iff b m1
  · intro b hb
    exact deserializeBinary_error_of_not_encoding b hb
  · intro k p hk1 hk3 hlen hp
    exact deserializeBinary_overwritten_payload omitEmpty m k p hk1 hk3 hlen hp

/-- Witness for C6: the encoding of the hello message cut to its first two bytes, and the
same encoding with the 17 payload bytes of its first field overwritten by `ff`. -/
theorem malformed_input_rejected_unless_well_formed_witness :
    2 < (serializeBinary true helloMessage).length
    ∧ 2 ∉ fieldBoundaries true helloMessage
    ∧ deserializeBinary ((serializeBinary true helloMessage).take 2) = .error .truncated
    ∧ (List.replicate 17 255).length = (utf8Encode (helloMessage.getField 1)).length
    ∧ deserializeBinary (overwrite (serializeBinary true helloMessage)
        (payloadStart true helloMessage 1) (List.replicate 17 255)) = .error .invalidUtf8 :=
  ⟨by decide, by decide,
    (malformed_input_rejected_unless_well_formed true helloMessage).1 2 (by decide)
      (by decide),
    by decide,
    (malformed_input_rejected_unless_well_formed true helloMessage).2.2.2.2.2.2 1
      (List.replicate 17 255) (by decide) (by decide) (by decide)
      (fun s hs => by
        have h := utf8Decode_utf8Encode s
        rw [hs] at h
        have h2 : utf8Decode (List.replicate 17 255) = none := rfl
        rw [h2] at h
        cases h)⟩

end WebsocketBenchmark
